import Mathlib

/-!
Verification development for the RepoCapsule ingestion pipeline.

The Python sources are embedded shallowly:

* text is `List Char` (named `Str` below); bytes are `List Nat` with each
  element below 256;
* Python `float` arithmetic is modelled exactly as rational arithmetic,
  implemented on unnormalized integer fractions (`PyNum.PyFloat`) so that
  the kernel can evaluate it; the numeric literals `0.8`, `0.2`, `3.2`,
  `4.0`, `2.8`, `4.6`, `0.06`, `0.7` of the source become the
  corresponding fractions, `math.ceil` the exact ceiling and `int(...)`
  truncation toward zero;
* `unicodedata.category` / `unicodedata.normalize` (Python standard
  library, outside this repository) are passed in as an explicit
  `UnicodeData` service record;
* fallible Python code (decoders raising `UnicodeDecodeError`,
  builders raising `ValueError`) returns `Option` / `Except`.
-/

namespace PyStr

/-- Text is a list of Unicode code points packaged as `Char`. -/
abbrev Str := List Char

/-- The whitespace set of Python's `str.isspace` / `re` `\s` (the code points
relevant to this development; all ASCII whitespace plus the common Unicode
space and line separators). -/
def isPySpace (c : Char) : Bool :=
  let n := c.toNat
  (9 ≤ n && n ≤ 13) || n = 32 || (28 ≤ n && n ≤ 31) || n = 0x85 || n = 0xA0 ||
  n = 0x1680 || (0x2000 ≤ n && n ≤ 0x200A) || n = 0x2028 || n = 0x2029 ||
  n = 0x202F || n = 0x205F || n = 0x3000

/-- The line-boundary set of Python's `str.splitlines`. -/
def isLineBreak (c : Char) : Bool :=
  let n := c.toNat
  n = 10 || n = 11 || n = 12 || n = 13 || (28 ≤ n && n ≤ 30) || n = 0x85 ||
  n = 0x2028 || n = 0x2029

/-- Worker for `splitlinesKeep`: `cur` holds the reversed chars of the
line being accumulated. `\r\n` is a single boundary, as in Python. -/
def splitKeepGo (cur : Str) : Str → List Str
  | [] => if cur = [] then [] else [cur.reverse]
  | '\r' :: '\n' :: rest => (cur.reverse ++ ['\r', '\n']) :: splitKeepGo [] rest
  | c :: rest =>
      if isLineBreak c then (cur.reverse ++ [c]) :: splitKeepGo [] rest
      else splitKeepGo (c :: cur) rest

/-- Python `text.splitlines(keepends=True)`. -/
def splitlinesKeep (s : Str) : List Str := splitKeepGo [] s

/-- Python `text.splitlines()` (keepends=False): each keepends line with its
trailing boundary removed. -/
def stripLineBreak (line : Str) : Str :=
  match line.reverse with
  | '\n' :: '\r' :: r => r.reverse
  | c :: r => if isLineBreak c then r.reverse else line
  | [] => []

/-- Python `text.splitlines()` without keepends. -/
def splitlines (s : Str) : List Str := (splitlinesKeep s).map stripLineBreak

/-- Python `s.lstrip()`. -/
def pyLstrip (s : Str) : Str := s.dropWhile isPySpace

/-- Python `s.strip()`. -/
def pyStrip (s : Str) : Str := ((s.dropWhile isPySpace).reverse.dropWhile isPySpace).reverse

/-- Python `s.startswith(p)`. -/
def pyStartsWith (s p : Str) : Bool := p.isPrefixOf s

/-- Python `needle in haystack` (substring containment). -/
def pyContainsSub (needle : Str) : Str → Bool
  | [] => needle.isPrefixOf []
  | c :: rest => needle.isPrefixOf (c :: rest) || pyContainsSub needle rest

/-- Sum of the lengths of the first `i` elements (Python
`sum(len(x) for x in lines[:i])`). -/
def lenSum (lines : List Str) (i : ℕ) : ℕ :=
  ((lines.take i).map List.length).sum

theorem length_dropWhile_le (p : Char → Bool) (l : List Char) :
    (l.dropWhile p).length ≤ l.length := by
  induction l with
  | nil => simp
  | cons c r ih => by_cases h : p c <;> simp [List.dropWhile, h] <;> omega

theorem length_dropWhile_le' {α : Type} (p : α → Bool) (l : List α) :
    (l.dropWhile p).length ≤ l.length := by
  induction l with
  | nil => simp
  | cons c r ih => by_cases h : p c <;> simp [List.dropWhile, h] <;> omega

/-- Joining the keepends lines gives back the original text
(`"".join(text.splitlines(keepends=True)) == text`). -/
theorem splitKeepGo_join (cur : Str) (l : Str) :
    (splitKeepGo cur l).flatten = cur.reverse ++ l := by
  induction cur, l using splitKeepGo.induct <;>
    simp_all [splitKeepGo]

theorem splitlinesKeep_join (s : Str) : (splitlinesKeep s).flatten = s := by
  simpa using splitKeepGo_join [] s

end PyStr

namespace PyNum

/-- An exact fraction with the denominator kept positive by construction;
used to model Python float values whose exact rational value decides every
comparison in this development. -/
structure PyFloat where
  num : ℤ
  den : ℤ
  deriving Repr, DecidableEq

namespace PyFloat

def ofInt (n : ℤ) : PyFloat := ⟨n, 1⟩

def ofNat (n : ℕ) : PyFloat := ⟨(n : ℤ), 1⟩

def add (a b : PyFloat) : PyFloat := ⟨a.num * b.den + b.num * a.den, a.den * b.den⟩

def sub (a b : PyFloat) : PyFloat := ⟨a.num * b.den - b.num * a.den, a.den * b.den⟩

def mul (a b : PyFloat) : PyFloat := ⟨a.num * b.num, a.den * b.den⟩

/-- Division; the sign of the divisor's numerator moves into the result's
numerator so the denominator stays positive. -/
def div (a b : PyFloat) : PyFloat :=
  if b.num < 0 then ⟨-(a.num * b.den), -(a.den * b.num)⟩
  else ⟨a.num * b.den, a.den * b.num⟩

/-- `a ≤ b` by cross-multiplication (denominators positive). -/
def ble (a b : PyFloat) : Bool := a.num * b.den ≤ b.num * a.den

/-- `a < b` by cross-multiplication (denominators positive). -/
def blt (a b : PyFloat) : Bool := a.num * b.den < b.num * a.den

/-- Python `max` on two float values. -/
def fmax (a b : PyFloat) : PyFloat := if blt a b then b else a

/-- Python `min` on two float values. -/
def fmin (a b : PyFloat) : PyFloat := if blt b a then b else a

/-- Exact ceiling, as Python `math.ceil`. -/
def ceilz (a : PyFloat) : ℤ := -Int.fdiv (-a.num) a.den

/-- Truncation toward zero, as Python `int(...)`. -/
def truncz (a : PyFloat) : ℤ := Int.tdiv a.num a.den

end PyFloat

end PyNum

/-!
## `repocapsule.chunk` (src/src/repocapsule/chunk.py)

Token estimation, the Markdown block splitter, the two chunkers, and the
policy wrapper `chunk_text`.
-/

namespace RepoChunk

open PyStr PyNum

/-- The `_PUNCT` character set, by code point:
`()[]{}<>=:+-*/%,.;$#@\|` with backquote, tilde and caret. -/
def _PUNCT : List ℕ :=
  [40, 41, 91, 93, 123, 125, 60, 62, 61, 58, 43, 45, 42, 47, 37,
   44, 46, 59, 36, 35, 64, 92, 124, 96, 126, 94]

def isPunct (c : Char) : Bool := _PUNCT.contains c.toNat

/-- Python `ch.isdigit()` (modelled for the ASCII digits; the texts in this
development are ASCII). -/
def pyIsDigit (c : Char) : Bool := c.isDigit

/-- `_char_token_ratio(kind, text)`: estimated chars per token, clamped to
`[2.8, 4.6]`. Float arithmetic is modelled exactly (see `PyNum.PyFloat`). -/
def _char_token_ratio (kind : String) (text : Str) : PyFloat :=
  let n := text.length
  if n = 0 then .ofInt 4 else
  let sym := (text.filter isPunct).length
  let digits := (text.filter pyIsDigit).length
  let spaces := (text.filter (· = ' ')).length + (text.filter (· = '\n')).length +
    (text.filter (· = '\t')).length
  let symDensity := PyFloat.div (.ofNat (sym + digits)) (.ofNat (max 1 n))
  let base : PyFloat := if kind = "code" then ⟨32, 10⟩ else .ofInt 4
  let ratio := PyFloat.add (PyFloat.sub base (PyFloat.mul ⟨8, 10⟩ symDensity))
    (PyFloat.mul ⟨2, 10⟩ (PyFloat.div (.ofNat spaces) (.ofNat (max 1 n))))
  PyFloat.fmax ⟨28, 10⟩ (PyFloat.fmin ⟨46, 10⟩ ratio)

/-- `approx_token_count(text, kind) = ceil(len(text) / ratio)`. -/
def approx_token_count (text : Str) (kind : String) : ℤ :=
  if text = [] then 0
  else PyFloat.ceilz (PyFloat.div (.ofNat text.length) (_char_token_ratio kind text))

/-- Fence characters: backquote (96) and tilde (126), the class of
`_FENCE_OPEN`/`_FENCE_CLOSE`. -/
def isFenceChar (c : Char) : Bool := c.toNat = 96 || c.toNat = 126

/-- The info-string class `[A-Za-z0-9_+-]` of `_FENCE_OPEN`. -/
def isFenceInfoChar (c : Char) : Bool :=
  c.isAlphanum || c = '_' || c = '+' || c = '-'

/-- `_FENCE_OPEN.match(line)`: the regex is a sequence of pairwise-disjoint
character-class runs, so the greedy match succeeds iff the line decomposes
as whitespace, a fence run of length at least 3, an info run, and trailing
whitespace. Returns the fence run's first character and its length. -/
def fenceOpenMatch (line : Str) : Option (Char × ℕ) :=
  let l1 := line.dropWhile isPySpace
  let run := l1.takeWhile isFenceChar
  if run.length < 3 then none
  else if ((l1.drop run.length).dropWhile isFenceInfoChar).all isPySpace then
    some (run.headD ' ', run.length)
  else none

/-- `_FENCE_CLOSE.match(line)`: whitespace, fence run of length at least 3,
trailing whitespace. -/
def fenceCloseMatch (line : Str) : Option (Char × ℕ) :=
  let l1 := line.dropWhile isPySpace
  let run := l1.takeWhile isFenceChar
  if run.length < 3 then none
  else if (l1.drop run.length).all isPySpace then some (run.headD ' ', run.length)
  else none

/-- `\S` holds at the head of the remaining input. -/
def nonWsHead (l : Str) : Bool :=
  match l.head? with
  | some c => !isPySpace c
  | none => false

/-- `_HEADING.match(line)`: `^\s{0,3}#{1,6}\s+\S`. -/
def headingMatch (line : Str) : Bool :=
  let ws := (line.takeWhile isPySpace).length
  if ws > 3 then false else
  let l1 := line.drop ws
  let hashes := (l1.takeWhile (· = '#')).length
  if hashes < 1 || hashes > 6 then false else
  let l2 := l1.drop hashes
  let sp := (l2.takeWhile isPySpace).length
  decide (1 ≤ sp) && nonWsHead (l2.drop sp)

/-- `_LIST.match(line)`: `^\s{0,3}(?:[-*+]|\d+\.)\s+\S`. -/
def listMatch (line : Str) : Bool :=
  let ws := (line.takeWhile isPySpace).length
  if ws > 3 then false else
  let l1 := line.drop ws
  let afterMarker : Option Str :=
    match l1.head? with
    | some c =>
        if c = '-' || c = '*' || c = '+' then some (l1.drop 1)
        else
          let ds := (l1.takeWhile pyIsDigit).length
          if 1 ≤ ds && (l1.drop ds).head? = some '.' then some (l1.drop (ds + 1))
          else none
    | none => none
  match afterMarker with
  | none => false
  | some l2 =>
      let sp := (l2.takeWhile isPySpace).length
      decide (1 ≤ sp) && nonWsHead (l2.drop sp)

/-- Matcher for one `_HR` alternative body `(?:c\s?){3,}` followed by `$`
(end of string or a final newline), with backtracking over the optional
whitespace of each unit. `n` counts the units consumed so far. -/
def hrUnits (mark : Char) : Str → ℕ → Bool
  | [], n => decide (3 ≤ n)
  | ['\n'], n => decide (3 ≤ n)
  | [c], n => c = mark && decide (3 ≤ n + 1)
  | c :: d :: rest2, n =>
      c = mark &&
        (if isPySpace d then
          hrUnits mark rest2 (n + 1) || hrUnits mark (d :: rest2) (n + 1)
         else hrUnits mark (d :: rest2) (n + 1))

/-- One `_HR` alternative `^\s{0,3}(?:c\s?){3,}$`. -/
def hrAltMatch (mark : Char) (line : Str) : Bool :=
  let ws := (line.takeWhile isPySpace).length
  decide (ws ≤ 3) && hrUnits mark (line.drop ws) 0

/-- `_HR.match(line)`: the three alternatives for `-`, `*`, `_`. -/
def hrMatch (line : Str) : Bool :=
  hrAltMatch '-' line || hrAltMatch '*' line || hrAltMatch '_' line

/-- `_INDENTED_CODE.match(line)`: `^(?:\t| {4,})\S`. -/
def indentedCodeMatch (line : Str) : Bool :=
  match line with
  | '\t' :: rest => nonWsHead rest
  | _ =>
      let sp := (line.takeWhile (· = ' ')).length
      decide (4 ≤ sp) && nonWsHead (line.drop sp)

/-- `_TABLE_ROW.search(line)`: `\|.*\|` somewhere in the line — two `|`
characters with no newline between them. -/
def tableRowSearch : Str → Bool
  | [] => false
  | c :: rest =>
      (c = '|' && (rest.takeWhile (· ≠ '\n')).contains '|') || tableRowSearch rest

end RepoChunk

namespace RepoChunk

open PyStr PyNum

/-- Sentence-final punctuation, the lookbehind class `[.!?]` of
`_SENT_SPLIT`. -/
def isSentEnd (c : Char) : Bool := c = '.' || c = '!' || c = '?'

/-- The quote class of the `_SENT_SPLIT` lookahead (double quote,
apostrophe, closing parenthesis). -/
def isQuoteCls (c : Char) : Bool := c.toNat = 34 || c.toNat = 39 || c.toNat = 41

/-- The `_SENT_SPLIT` lookahead: a run of quote-class characters followed by
`[A-Z0-9]`. The classes are disjoint, so the lazy quantifier reduces to
checking the character after the maximal quote run. -/
def sentLookahead (l : Str) : Bool :=
  match (l.dropWhile isQuoteCls).head? with
  | some c => (65 ≤ c.toNat && c.toNat ≤ 90) || (48 ≤ c.toNat && c.toNat ≤ 57)
  | none => false

/-- `_SENT_SPLIT.split`: scan for maximal whitespace runs whose preceding
character is sentence-final and whose lookahead succeeds; each such run
separates two pieces. `prev` is the last scanned character, `acc` the
reversed current piece. The first argument is recursion fuel (one unit per
scanned character; callers pass the input length, which always suffices —
the fuel-exhausted case is unreachable). -/
def sentSplitGo : ℕ → Option Char → Str → Str → List Str
  | _, _, acc, [] => [acc.reverse]
  | 0, _, acc, l => [acc.reverse ++ l]
  | fuel + 1, prev, acc, c :: rest =>
      if (match prev with | some p => isSentEnd p | none => false) && isPySpace c
          && sentLookahead (rest.dropWhile isPySpace) then
        acc.reverse :: sentSplitGo fuel none [] (rest.dropWhile isPySpace)
      else sentSplitGo fuel (some c) (c :: acc) rest

/-- `_split_paragraph_into_sentences(p)`. -/
def _split_paragraph_into_sentences (p : Str) : List Str :=
  let p := pyStrip p
  if p = [] then []
  else ((sentSplitGo p.length none [] p).map pyStrip).filter (· ≠ [])

/-- A structural block of `_split_markdown_blocks`:
`(block_text, start, end)` with character offsets into the original text. -/
abbrev Block := Str × ℕ × ℕ

/-- The inner fence-consuming loop of `_split_markdown_blocks`: consume
lines until a closing fence with the same character and at least the
opening length; return the consumed lines and the remaining lines. -/
def fenceConsume (fc : Char) (fl : ℕ) : List Str → List Str × List Str
  | [] => ([], [])
  | ln :: rest =>
      let stop :=
        match fenceCloseMatch ln with
        | some (c, l) => c = fc && decide (fl ≤ l)
        | none => false
      if stop then ([ln], rest)
      else
        let (a, r) := fenceConsume fc fl rest
        (ln :: a, r)

theorem fenceConsume_rest_le (fc : Char) (fl : ℕ) (l : List Str) :
    (fenceConsume fc fl l).2.length ≤ l.length := by
  induction l with
  | nil => simp [fenceConsume]
  | cons ln rest ih =>
      simp only [fenceConsume]
      split
      · simp
      · simpa using Nat.le_succ_of_le ih

/-- Paragraph flush of `_split_markdown_blocks`. -/
def flushPara (buf : List Str) (bufStart : ℕ) : List Block :=
  if buf = [] then []
  else [(buf.flatten, bufStart, bufStart + buf.flatten.length)]

/-- The main loop of `_split_markdown_blocks` over the keepends lines.
`pos` is the character offset of the current line; `buf`/`bufStart`
accumulate a paragraph. The first argument is recursion fuel (at least one
line is consumed per step; callers pass the number of lines, which always
suffices — the fuel-exhausted case is unreachable). -/
def splitMdGo : ℕ → ℕ → List Str → ℕ → List Block → List Str → List Block
  | _, _, buf, bufStart, blocks, [] => blocks ++ flushPara buf bufStart
  | 0, _, buf, bufStart, blocks, _ => blocks ++ flushPara buf bufStart
  | fuel + 1, pos, buf, bufStart, blocks, line :: rest =>
      match fenceOpenMatch line with
      | some (fc, fl) =>
          let blocks := blocks ++ flushPara buf bufStart
          let fcr := fenceConsume fc fl rest
          let ftext := line ++ fcr.1.flatten
          splitMdGo fuel (pos + ftext.length) [] bufStart
            (blocks ++ [(ftext, pos, pos + ftext.length)]) fcr.2
      | none =>
          if tableRowSearch line then
            let blocks := blocks ++ flushPara buf bufStart
            let tbuf := line :: rest.takeWhile tableRowSearch
            let rest2 := rest.dropWhile tableRowSearch
            let ttext := tbuf.flatten
            splitMdGo fuel (pos + ttext.length) [] bufStart
              (blocks ++ [(ttext, pos, pos + ttext.length)]) rest2
          else if indentedCodeMatch line then
            let blocks := blocks ++ flushPara buf bufStart
            let keep := fun ln => pyStrip ln = ([] : Str) || indentedCodeMatch ln
            let cbuf := line :: rest.takeWhile keep
            let rest2 := rest.dropWhile keep
            let ctext := cbuf.flatten
            splitMdGo fuel (pos + ctext.length) [] bufStart
              (blocks ++ [(ctext, pos, pos + ctext.length)]) rest2
          else if headingMatch line || hrMatch line || listMatch line then
            let blocks := blocks ++ flushPara buf bufStart
            splitMdGo fuel (pos + line.length) [] bufStart
              (blocks ++ [(line, pos, pos + line.length)]) rest
          else
            let bufStart := if buf = [] then pos else bufStart
            let buf := buf ++ [line]
            if pyStrip line = [] then
              splitMdGo fuel (pos + line.length) [] bufStart
                (blocks ++ flushPara buf bufStart) rest
            else splitMdGo fuel (pos + line.length) buf bufStart blocks rest

/-- `_split_markdown_blocks(text)`. -/
def _split_markdown_blocks (text : Str) : List Block :=
  let lines := splitlinesKeep text
  splitMdGo lines.length 0 [] 0 [] lines

end RepoChunk

namespace RepoChunk

open PyStr PyNum

/-- The `Chunk` dataclass. The Python field `end` is spelled `stop` here
(`end` is a Lean keyword); it is the exclusive character offset. -/
structure Chunk where
  text : Str
  start : ℤ
  stop : ℤ
  est_tokens : ℤ
  deriving Repr, DecidableEq

/-- The `ChunkPolicy` dataclass with its defaults. -/
structure ChunkPolicy where
  mode : String := "auto"
  target_tokens : ℤ := 800
  overlap_tokens : ℤ := 100
  min_tokens : ℤ := 200
  deriving Repr, DecidableEq

/-- Python `s[-k:]` for a non-negative int `k` (`k = 0` yields the whole
string, as in Python). -/
def pyTailSlice (s : Str) (k : ℤ) : Str :=
  if k = 0 then s else s.drop (s.length - k.toNat)

/-- Mutable state of `chunk_by_paragraphs`: emitted chunks plus the
accumulating `cur_text`/`cur_start`/`cur_len`. -/
structure PackState where
  chunks : List Chunk
  cur_text : List Str
  cur_start : ℤ
  cur_len : ℤ
  deriving Repr, DecidableEq

/-- The `flush_chunk(kind)` closure of `chunk_by_paragraphs`, including the
overlap-tail seeding when `overlap_tokens > 0`. -/
def flush_chunk (overlap_tokens : ℤ) (kind : String) (st : PackState) : PackState :=
  if st.cur_text = [] then st else
  let chunkText := st.cur_text.flatten
  let est := approx_token_count chunkText kind
  let c : Chunk := ⟨chunkText, st.cur_start, st.cur_start + chunkText.length, est⟩
  let chunks := st.chunks ++ [c]
  if overlap_tokens > 0 then
    let ratio := _char_token_ratio "doc" chunkText
    let tailChars := PyFloat.truncz (PyFloat.mul (.ofInt overlap_tokens) ratio)
    let overlapTail := pyTailSlice chunkText tailChars
    { chunks := chunks, cur_text := [overlapTail],
      cur_start := c.stop - overlapTail.length, cur_len := overlapTail.length }
  else
    { chunks := chunks, cur_text := [], cur_start := st.cur_start, cur_len := 0 }

/-- Oversized-code-block helper: `sub = fence_prefix + sub + (fence_suffix
or fence_prefix.replace("\n", ""))` when a fence was detected. -/
def mkFenceSub (fencePre fenceSuf : Str) (pack : List Str) : Str :=
  let sub := pack.flatten
  if fencePre ≠ [] then
    fencePre ++ sub ++ (if fenceSuf ≠ [] then fenceSuf else fencePre.filter (· ≠ '\n'))
  else sub

/-- The line-packing loop of the oversized-code-block branch. -/
def codePackStep (target overlap : ℤ) (fencePre fenceSuf : Str)
    (acc : PackState × List Str × ℤ) (ln : Str) : PackState × List Str × ℤ :=
  let st := acc.1
  let pack := acc.2.1 ++ [ln]
  let packChars := acc.2.2 + (ln.length : ℤ)
  let est := approx_token_count pack.flatten "code"
  if est ≥ target then
    let st := { st with cur_text := st.cur_text ++ [mkFenceSub fencePre fenceSuf pack] }
    (flush_chunk overlap "code" st, [], 0)
  else (st, pack, packChars)

/-- The oversized-code-block branch of `chunk_by_paragraphs` (fence
detection, per-line packing, re-wrapping each fragment in the fence). -/
def splitCodeBlock (target overlap : ℤ) (st : PackState) (btxt : Str) : PackState :=
  let lines := splitlinesKeep btxt
  -- Python: `if lines and lines[0].lstrip().startswith("```") or
  -- lines[0].lstrip().startswith("~~~"):` — note the precedence; the first
  -- line is read via `headD` (it exists, `btxt` being non-empty here).
  let firstL := pyLstrip (lines.headD [])
  if (lines ≠ [] && pyStartsWith firstL "```".data) || pyStartsWith firstL "~~~".data then
    let fencePre := lines.headD []
    let lines1 := lines.tail
    let lastStripped := pyStrip (lines1.getLastD [])
    let hasSuf := lines1 ≠ [] &&
      (pyStartsWith lastStripped "```".data || pyStartsWith lastStripped "~~~".data)
    let fenceSuf := if hasSuf then lines1.getLastD [] else []
    let lines2 := if hasSuf then lines1.dropLast else lines1
    let r := lines2.foldl (codePackStep target overlap fencePre fenceSuf) (st, [], 0)
    if r.2.1 ≠ [] then
      { r.1 with cur_text := r.1.cur_text ++ [mkFenceSub fencePre fenceSuf r.2.1] }
    else r.1
  else
    let r := lines.foldl (codePackStep target overlap [] []) (st, [], 0)
    if r.2.1 ≠ [] then
      { r.1 with cur_text := r.1.cur_text ++ [mkFenceSub [] [] r.2.1] }
    else r.1

/-- The character-stride fallback of the oversized-paragraph branch
(`for i in range(0, len(btxt), step_chars)`). Unreachable for blocks that
pass the non-blank check (they always have at least one sentence); the
non-positive-stride guard keeps the definition total. The first argument is
recursion fuel (the caller passes `btxt.length + 1`, which suffices for a
positive stride). -/
def hardSplitGo (overlap : ℤ) (btxt : Str) (step : ℕ) :
    ℕ → ℕ → PackState → PackState
  | 0, _, st => st
  | fuel + 1, i, st =>
      if i < btxt.length then
        if 0 < step then
          let st := { st with cur_text := st.cur_text ++ [(btxt.drop i).take step] }
          hardSplitGo overlap btxt step fuel (i + step) (flush_chunk overlap "doc" st)
        else st
      else st

/-- Python `" ".join(parts)`. -/
def joinSpace (parts : List Str) : Str := (parts.intersperse [' ']).flatten

/-- The sentence-packing loop of the oversized-paragraph branch. -/
def sentPackStep (target overlap : ℤ) (acc : PackState × List Str) (s : Str) :
    PackState × List Str :=
  let st := acc.1
  let pack := acc.2
  let candidate := pyStrip (joinSpace (pack ++ [s]))
  if approx_token_count candidate "doc" > target && pack ≠ [] then
    let st := { st with cur_text := st.cur_text ++ [pyStrip (joinSpace pack) ++ ['\n']] }
    (flush_chunk overlap "doc" st, [s])
  else (st, pack ++ [s])

/-- The oversized-paragraph branch: sentence split, else hard split. -/
def splitProseBlock (target overlap : ℤ) (st : PackState) (btxt : Str) : PackState :=
  let sentences := _split_paragraph_into_sentences btxt
  if sentences = [] then
    let stepChars := PyFloat.truncz (PyFloat.mul (.ofInt target) (_char_token_ratio "doc" btxt))
    if stepChars ≤ 0 then st
    else hardSplitGo overlap btxt stepChars.toNat (btxt.length + 1) 0 st
  else
    let r := sentences.foldl (sentPackStep target overlap) (st, [])
    if r.2 ≠ [] then
      { r.1 with cur_text := r.1.cur_text ++ [pyStrip (joinSpace r.2) ++ ['\n']] }
    else r.1

/-- The per-block body of the main loop of `chunk_by_paragraphs`. -/
def processBlock (target overlap minTok : ℤ) (st : PackState) (b : Block) : PackState :=
  let btxt := b.1
  let bstart := (b.2.1 : ℤ)
  let b_tokens := approx_token_count btxt "doc"
  if pyStrip btxt = [] then st
  else if b_tokens > max target (2 * target) then
    if pyContainsSub "```".data btxt || pyStartsWith btxt "    ".data then
      splitCodeBlock target overlap st btxt
    else splitProseBlock target overlap st btxt
  else
    let candidate := (st.cur_text ++ [btxt]).flatten
    if approx_token_count candidate "doc" > target &&
        approx_token_count st.cur_text.flatten "doc" ≥ minTok then
      let st := flush_chunk overlap "doc" st
      { st with cur_text := [btxt], cur_start := bstart, cur_len := (btxt.length : ℤ) }
    else
      let st := if st.cur_text = [] then { st with cur_start := bstart } else st
      { st with cur_text := st.cur_text ++ [btxt],
                cur_len := st.cur_len + (btxt.length : ℤ) }

/-- `chunk_by_paragraphs(text, target_tokens=, overlap_tokens=, min_tokens=)`. -/
def chunk_by_paragraphs (text : Str) (target_tokens overlap_tokens min_tokens : ℤ) :
    List Chunk :=
  let blocks := _split_markdown_blocks text
  let st := blocks.foldl (processBlock target_tokens overlap_tokens min_tokens)
    ⟨[], [], 0, 0⟩
  let st := flush_chunk overlap_tokens "doc" st
  if st.chunks = [] && text ≠ [] then
    [⟨text, 0, (text.length : ℤ), approx_token_count text "doc"⟩]
  else st.chunks

/-- Mutable state of `chunk_by_lines`. -/
structure CBLState where
  chunks : List Chunk
  buf : List Str
  bufStart : ℤ
  start : ℕ
  deriving Repr, DecidableEq

/-- The `flush()` closure of `chunk_by_lines`. -/
def cblFlush (lines : List Str) (overlap_lines : ℕ) (st : CBLState) : CBLState :=
  if st.buf = [] then st else
  let s := st.buf.flatten
  let est := approx_token_count s "code"
  let c : Chunk := ⟨s, st.bufStart, st.bufStart + s.length, est⟩
  let chunks := st.chunks ++ [c]
  if 0 < overlap_lines then
    let tailText := ((lines.take st.start).drop (st.start - overlap_lines)).flatten
    { chunks := chunks, buf := [tailText],
      bufStart := c.stop - tailText.length, start := st.start }
  else { chunks := chunks, buf := [], bufStart := st.bufStart, start := st.start }

/-- One iteration of the `while i < len(lines)` loop of `chunk_by_lines`
(only entered when `i < len(lines)`; `lines[i]` is read with a default for
totality). -/
def cblStep (lines : List Str) (target : ℤ) (ov : ℕ) (i : ℕ) (st : CBLState) :
    CBLState :=
  let st1 := if st.buf = [] then { st with bufStart := (lenSum lines i : ℤ) } else st
  let st2 := { st1 with buf := st1.buf ++ [lines.getD i []], start := i + 1 }
  if approx_token_count st2.buf.flatten "code" ≥ target then cblFlush lines ov st2
  else st2

/-- The main `while i < len(lines)` loop of `chunk_by_lines`. The first
argument is recursion fuel (one line per step; callers pass the number of
lines, which always suffices). -/
def cblGo (lines : List Str) (target : ℤ) (ov : ℕ) :
    ℕ → ℕ → CBLState → CBLState
  | 0, _, st => st
  | fuel + 1, i, st =>
      if i < lines.length then
        cblGo lines target ov fuel (i + 1) (cblStep lines target ov i st)
      else st

/-- `chunk_by_lines(text, target_tokens=, overlap_lines=)`. -/
def chunk_by_lines (text : Str) (target_tokens : ℤ) (overlap_lines : ℕ) : List Chunk :=
  let lines := splitlinesKeep text
  let st := cblGo lines target_tokens overlap_lines lines.length 0 ⟨[], [], 0, 0⟩
  let st := cblFlush lines overlap_lines st
  if st.chunks = [] && text ≠ [] then
    [⟨text, 0, (text.length : ℤ), approx_token_count text "code"⟩]
  else st.chunks

/-- `_looks_like_code(text)`. -/
def _looks_like_code (text : Str) : Bool :=
  if text = [] then false else
  let punct := (text.filter isPunct).length
  let lns := splitlines text
  let short_lines := (lns.filter (fun ln => ln.length ≤ 60)).length
  let total_lines := max 1 lns.length
  PyFloat.blt ⟨6, 100⟩ (PyFloat.div (.ofNat punct) (.ofNat (max 1 text.length))) ||
    (PyFloat.blt ⟨7, 10⟩ (PyFloat.div (.ofNat short_lines) (.ofNat total_lines)) &&
      decide (6 < total_lines))

/-- `chunk_text(text, policy)`: resolve `auto`, then dispatch to the code
or document chunker (`chunk_by_lines` is called with its default
`overlap_lines=0`). -/
def chunk_text (text : Str) (policy : ChunkPolicy) : List Chunk :=
  let mode := if policy.mode = "auto" then
      (if _looks_like_code text then "code" else "doc")
    else policy.mode
  if mode = "code" then chunk_by_lines text policy.target_tokens 0
  else chunk_by_paragraphs text policy.target_tokens policy.overlap_tokens
    policy.min_tokens

end RepoChunk


namespace RepoChunk

open PyStr PyNum

/-- `Tiles cs a b`: the chunks `cs` tile the half-open interval `[a, b)` —
each chunk starts where the previous one stopped, its `stop` is its `start`
plus its text length, and the last chunk stops at `b`. -/
def Tiles : List Chunk → ℤ → ℤ → Prop
  | [], a, b => a = b
  | c :: cs, a, b => c.start = a ∧ c.stop = a + (c.text.length : ℤ) ∧ Tiles cs c.stop b

theorem Tiles.append_one {cs : List Chunk} {a b : ℤ} (h : Tiles cs a b) (c : Chunk)
    (hs : c.start = b) (he : c.stop = b + (c.text.length : ℤ)) :
    Tiles (cs ++ [c]) a c.stop := by
  induction cs generalizing a with
  | nil => simp only [Tiles] at h; subst h; exact ⟨hs, by omega, rfl⟩
  | cons d cs ih =>
      obtain ⟨h1, h2, h3⟩ := h
      exact ⟨h1, h2, ih h3⟩

theorem Tiles.covers {cs : List Chunk} {a b : ℤ} (h : Tiles cs a b) :
    ∀ k : ℤ, a ≤ k → k < b → ∃ c ∈ cs, c.start ≤ k ∧ k < c.stop := by
  induction cs generalizing a with
  | nil => intro k h1 h2; simp only [Tiles] at h; omega
  | cons c cs ih =>
      intro k h1 h2
      obtain ⟨hs, he, ht⟩ := h
      by_cases hk : k < c.stop
      · exact ⟨c, by simp, by omega, hk⟩
      · obtain ⟨d, hd, h3, h4⟩ := ih ht k (by omega) h2
        exact ⟨d, by simp [hd], h3, h4⟩

theorem Tiles.start_ge {cs : List Chunk} {a b : ℤ} (h : Tiles cs a b) :
    ∀ c ∈ cs, a ≤ c.start := by
  induction cs generalizing a with
  | nil => simp
  | cons c cs ih =>
      obtain ⟨hs, he, ht⟩ := h
      intro d hd
      rcases List.mem_cons.mp hd with h | h
      · subst h; omega
      · have h1 := ih ht d h
        have h2 : (0 : ℤ) ≤ (c.text.length : ℤ) := Int.ofNat_nonneg _
        omega

theorem Tiles.ordered {cs : List Chunk} {a b : ℤ} (h : Tiles cs a b) :
    cs.Chain' (fun x y => x.start ≤ y.start) := by
  induction cs generalizing a with
  | nil => simp
  | cons c cs ih =>
      obtain ⟨hs, he, ht⟩ := h
      refine List.chain'_cons'.mpr ⟨?_, ih ht⟩
      intro y hy
      have hmem : y ∈ cs := by
        cases cs with
        | nil => simp at hy
        | cons d l => simp at hy; subst hy; simp
      have h1 := Tiles.start_ge ht y hmem
      have h2 : (0 : ℤ) ≤ (c.text.length : ℤ) := Int.ofNat_nonneg _
      omega

end RepoChunk

namespace RepoChunk

open PyStr PyNum

theorem lenSum_succ (lines : List Str) (i : ℕ) (h : i < lines.length) :
    lenSum lines (i + 1) = lenSum lines i + (lines.getD i []).length := by
  unfold PyStr.lenSum
  rw [show lines.take (i + 1) = lines.take i ++ [lines.getD i []] from by
    rw [List.take_succ]
    simp [List.getElem?_eq_getElem h, List.getD, List.getElem?_eq_getElem h]]
  simp

theorem lenSum_of_le (lines : List Str) (i : ℕ) (h : lines.length ≤ i) :
    lenSum lines i = lines.flatten.length := by
  unfold PyStr.lenSum
  rw [List.take_of_length_le h, List.length_flatten]

/-- Loop invariant of `cblGo` without line overlap: the emitted chunks tile
`[0, P)` where `P` is the offset of the pending buffer (`bufStart` when the
buffer is non-empty, the current line offset when it is empty). -/
def CBLInv (lines : List Str) (i : ℕ) (st : CBLState) : Prop :=
  (st.buf = [] ∧ Tiles st.chunks 0 (lenSum lines i : ℤ)) ∨
  (st.buf ≠ [] ∧ Tiles st.chunks 0 st.bufStart ∧
    st.bufStart + (st.buf.flatten.length : ℤ) = (lenSum lines i : ℤ))


end RepoChunk

namespace RepoChunk
open PyStr PyNum

theorem cblFlush_inv (lines : List Str) (i : ℕ) (st : CBLState)
    (h : CBLInv lines i st) :
    (cblFlush lines 0 st).buf = [] ∧
      Tiles (cblFlush lines 0 st).chunks 0 (lenSum lines i : ℤ) := by
  obtain ⟨chunks, buf, bufStart, start⟩ := st
  rcases h with ⟨hb, ht⟩ | ⟨hb, ht, he⟩
  · simp only at hb
    subst hb
    simpa [cblFlush] using ht
  · simp only at hb ht he
    simp only [cblFlush, if_neg hb, show ¬ ((0 : ℕ) < 0) by omega, if_false]
    refine ⟨by simp, ?_⟩
    dsimp only
    exact he ▸ Tiles.append_one ht _ rfl rfl

theorem cblStep_inv (lines : List Str) (target : ℤ) (i : ℕ) (st : CBLState)
    (h : i < lines.length) (hinv : CBLInv lines i st) :
    CBLInv lines (i + 1) (cblStep lines target 0 i st) := by
  obtain ⟨chunks, buf, bufStart, start⟩ := st
  rcases hinv with ⟨hb, ht⟩ | ⟨hb, ht, he⟩
  · simp only at hb ht
    subst hb
    have h2 : CBLInv lines (i + 1)
        ⟨chunks, [lines.getD i []], (lenSum lines i : ℤ), i + 1⟩ := by
      right
      refine ⟨by simp, by simpa using ht, ?_⟩
      simp [lenSum_succ lines i h]
    show CBLInv lines (i + 1)
      (if approx_token_count ([lines.getD i []] : List Str).flatten "code" ≥ target then
        cblFlush lines 0 ⟨chunks, [lines.getD i []], (lenSum lines i : ℤ), i + 1⟩
       else ⟨chunks, [lines.getD i []], (lenSum lines i : ℤ), i + 1⟩)
    split
    · exact Or.inl (cblFlush_inv lines (i + 1) _ h2)
    · exact h2
  · simp only at hb ht he
    have h2 : CBLInv lines (i + 1)
        ⟨chunks, buf ++ [lines.getD i []], bufStart, i + 1⟩ := by
      right
      refine ⟨by simp, by simpa using ht, ?_⟩
      simp only [List.flatten_append, List.length_append]
      rw [lenSum_succ lines i h]
      simp only [List.flatten_cons, List.flatten_nil, List.length_append, List.length_nil]
      push_cast
      omega
    simp only [cblStep, if_neg hb]
    show CBLInv lines (i + 1)
      (if approx_token_count (buf ++ [lines.getD i []] : List Str).flatten "code" ≥ target then
        cblFlush lines 0 ⟨chunks, buf ++ [lines.getD i []], bufStart, i + 1⟩
       else ⟨chunks, buf ++ [lines.getD i []], bufStart, i + 1⟩)
    split
    · exact Or.inl (cblFlush_inv lines (i + 1) _ h2)
    · exact h2

end RepoChunk

namespace RepoChunk
open PyStr PyNum

theorem cblGo_inv (lines : List Str) (target : ℤ) (fuel : ℕ) :
    ∀ (i : ℕ) (st : CBLState), lines.length ≤ fuel + i → CBLInv lines i st →
    CBLInv lines lines.length (cblGo lines target 0 fuel i st) := by
  induction fuel with
  | zero =>
      intro i st hfuel hinv
      have hle : lines.length ≤ i := by omega
      rw [cblGo]
      rcases hinv with ⟨hb, ht⟩ | ⟨hb, ht, he⟩
      · exact Or.inl ⟨hb, by rwa [lenSum_of_le lines i hle,
          ← lenSum_of_le lines lines.length le_rfl] at ht⟩
      · exact Or.inr ⟨hb, ht, by rwa [lenSum_of_le lines i hle,
          ← lenSum_of_le lines lines.length le_rfl] at he⟩
  | succ fuel ih =>
      intro i st hfuel hinv
      rw [cblGo]
      by_cases h : i < lines.length
      · rw [if_pos h]
        exact ih (i + 1) _ (by omega) (cblStep_inv lines target i st h hinv)
      · rw [if_neg h]
        have hle : lines.length ≤ i := by omega
        rcases hinv with ⟨hb, ht⟩ | ⟨hb, ht, he⟩
        · exact Or.inl ⟨hb, by rwa [lenSum_of_le lines i hle,
            ← lenSum_of_le lines lines.length le_rfl] at ht⟩
        · exact Or.inr ⟨hb, ht, by rwa [lenSum_of_le lines i hle,
            ← lenSum_of_le lines lines.length le_rfl] at he⟩

/-- `chunk_by_lines` with no line overlap tiles `[0, len(text))` exactly. -/
theorem chunk_by_lines_tiles (text : Str) (target : ℤ) :
    Tiles (chunk_by_lines text target 0) 0 (text.length : ℤ) := by
  rw [chunk_by_lines]
  have h0 : CBLInv (splitlinesKeep text) 0 ⟨[], [], 0, 0⟩ :=
    Or.inl ⟨rfl, by simp [PyStr.lenSum, Tiles]⟩
  have h1 := cblGo_inv (splitlinesKeep text) target (splitlinesKeep text).length 0
    ⟨[], [], 0, 0⟩ (by omega) h0
  have h2 := cblFlush_inv (splitlinesKeep text) (splitlinesKeep text).length _ h1
  have hlen : ((lenSum (splitlinesKeep text) (splitlinesKeep text).length : ℕ) : ℤ)
      = (text.length : ℤ) := by
    rw [lenSum_of_le _ _ le_rfl, splitlinesKeep_join]
  rw [hlen] at h2
  split
  · next hcond =>
      simp only [Bool.and_eq_true, decide_eq_true_eq] at hcond
      exact ⟨rfl, by simp, by simp [Tiles]⟩
  · exact h2.2

end RepoChunk

namespace RepoChunk

open PyStr PyNum

/-- Coverage in the sense of the specification: every offset of
`[0, n)` lies in some chunk's `[start, stop)`. -/
def ChunksCover (cs : List Chunk) (n : ℕ) : Prop :=
  ∀ k : ℤ, 0 ≤ k → k < (n : ℤ) → ∃ c ∈ cs, c.start ≤ k ∧ k < c.stop

/-- Ordering in the sense of the specification: non-decreasing `start`. -/
def ChunksOrdered (cs : List Chunk) : Prop :=
  cs.Chain' (fun a b => a.start ≤ b.start)

/-- Executable check for `ChunksOrdered`. -/
def chunksOrderedBool : List Chunk → Bool
  | [] => true
  | [_] => true
  | a :: b :: r => decide (a.start ≤ b.start) && chunksOrderedBool (b :: r)

theorem chunksOrderedBool_iff (cs : List Chunk) :
    chunksOrderedBool cs = true ↔ ChunksOrdered cs := by
  unfold ChunksOrdered
  induction cs with
  | nil => simp [chunksOrderedBool]
  | cons a r ih =>
      cases r with
      | nil => simp [chunksOrderedBool]
      | cons b l =>
          rw [chunksOrderedBool, List.chain'_cons, Bool.and_eq_true, decide_eq_true_eq]
          exact and_congr Iff.rfl ih

/-- A document whose oversized fenced code block makes `chunk_by_paragraphs`
re-wrap fences into every fragment; the re-wrapping inflates chunk lengths
past the true offsets, and the block that follows is then recorded at a
smaller `start` than its predecessor. -/
def orderBreakText : Str :=
  ("```python\n" ++ String.join (List.replicate 28 "aaaa\n") ++ "```\n"
    ++ "Some words here to follow and to make the candidate big enough.\n").data

end RepoChunk

namespace Claims

open PyStr PyNum RepoChunk

set_option maxRecDepth 20000 in
set_option maxHeartbeats 2000000 in
/-- C1 (counterexample): the chunk sequence of `chunk_text` does not always
cover the text and is not always ordered by `start`. For `"a\n\n\n"` under
the default document policy, the only chunk is `[0, 3)`, so offset `3` of
the 4-character text is uncovered (the trailing blank-line block is
dropped). For `orderBreakText` under a document policy with
`target_tokens=10, overlap_tokens=1, min_tokens=1`, the chunk starts are
`[0, 41, 85, 129, 173, 154]`, which decrease at the last step. -/
theorem C1_counterexample :
    (¬ ChunksCover (chunk_text "a\n\n\n".data { mode := "doc" }) "a\n\n\n".data.length) ∧
    (¬ ChunksOrdered (chunk_text orderBreakText
        { mode := "doc", target_tokens := 10, overlap_tokens := 1, min_tokens := 1 })) := by
  constructor
  · intro h
    exact absurd (h 3 (by decide) (by decide)) (by decide)
  · intro h
    exact absurd ((chunksOrderedBool_iff _).mpr h) (by decide)

end Claims

namespace Claims

open PyStr PyNum RepoChunk

/-- C1 (amended): when the chunk policy's mode is `"code"`, the chunk
sequence returned by `chunk_text(t, policy)` covers `t` — every offset of
`[0, len(t))` lies in some chunk's `[start, end)` — and the chunks are
ordered by non-decreasing start offset. (Document-mode chunking guarantees
neither; see the counterexample.) -/
theorem C1_code_mode_covers_and_ordered (text : Str) (policy : ChunkPolicy)
    (hmode : policy.mode = "code") :
    ChunksCover (chunk_text text policy) text.length ∧
      ChunksOrdered (chunk_text text policy) := by
  have heq : chunk_text text policy = chunk_by_lines text policy.target_tokens 0 := by
    rw [chunk_text, hmode]
    simp
  rw [heq]
  have ht := chunk_by_lines_tiles text policy.target_tokens
  exact ⟨fun k h1 h2 => ht.covers k h1 h2, ht.ordered⟩

/-- C1 witness: the code-mode coverage and ordering theorem applied to a
concrete two-line file. -/
theorem C1_witness :
    ChunksCover (chunk_text "abc\ndef\n".data
      { mode := "code", target_tokens := 1, overlap_tokens := 0, min_tokens := 0 })
      "abc\ndef\n".data.length ∧
    ChunksOrdered (chunk_text "abc\ndef\n".data
      { mode := "code", target_tokens := 1, overlap_tokens := 0, min_tokens := 0 }) :=
  C1_code_mode_covers_and_ordered "abc\ndef\n".data
    { mode := "code", target_tokens := 1, overlap_tokens := 0, min_tokens := 0 } rfl

end Claims

namespace Claims

open PyStr PyNum RepoChunk

/-- C5 (counterexample): a text that is a single paragraph block whose
approximate token count (2) exceeds `target_tokens` (1), yet document-mode
chunking returns exactly one chunk — the oversized-split branch only fires
above `2 * target_tokens`, and even then need not produce two chunks. -/
theorem C5_counterexample :
    _split_markdown_blocks "aaaaaaaa".data = [("aaaaaaaa".data, 0, 8)] ∧
    approx_token_count "aaaaaaaa".data "doc" = 2 ∧ (1 : ℤ) < 2 ∧
    ¬ 2 ≤ (chunk_by_paragraphs "aaaaaaaa".data 1 0 0).length := by
  refine ⟨by decide, by decide, by decide, ?_⟩
  intro h
  have : (chunk_by_paragraphs "aaaaaaaa".data 1 0 0).length = 1 := by decide
  omega

/-- C5 (amended): for every non-empty text, document-mode chunking yields at
least one chunk (two chunks are not guaranteed, even for a single paragraph
whose token estimate exceeds `target_tokens`). -/
theorem C5_nonempty_yields_chunk (text : Str) (target overlap minTok : ℤ)
    (htext : text ≠ []) :
    1 ≤ (chunk_by_paragraphs text target overlap minTok).length := by
  rw [chunk_by_paragraphs]
  split
  · simp
  · next hcond =>
      rcases List.eq_nil_or_concat
        (flush_chunk overlap "doc"
          ((_split_markdown_blocks text).foldl (processBlock target overlap minTok)
            ⟨[], [], 0, 0⟩)).chunks with h | ⟨l, c, h⟩
      · exact absurd (by simp [h, htext]) hcond
      · simp [h]

/-- C5 witness: the amended theorem applied to the oversized one-paragraph
text of the counterexample. -/
theorem C5_witness : 1 ≤ (chunk_by_paragraphs "aaaaaaaa".data 1 0 0).length :=
  C5_nonempty_yields_chunk "aaaaaaaa".data 1 0 0 (by decide)

/-- C6 (code bug): in `chunk_by_paragraphs`, a heading block that arrives
while the current chunk already holds at least `min_tokens` tokens is *not*
flushed first — there is no heading-specific logic in the packing loop. For
`"para.\n\n# Head x\n"` with `min_tokens = 1`: the paragraph block holds 2
tokens (at least `min_tokens`) when the heading block arrives, yet the
result is a single chunk containing the paragraph and the heading, so the
heading does not start a new chunk. (The repository's own test suite
asserts the heading-boundary behaviour, and the specification describes
it.) -/
theorem C6_heading_not_flushed :
    headingMatch "# Head x\n".data = true ∧
    _split_markdown_blocks "para.\n\n# Head x\n".data
      = [("para.\n\n".data, 0, 7), ("# Head x\n".data, 7, 16)] ∧
    approx_token_count "para.\n\n".data "doc" = 2 ∧ (1 : ℤ) ≤ 2 ∧
    chunk_by_paragraphs "para.\n\n# Head x\n".data 800 100 1
      = [⟨"para.\n\n# Head x\n".data, 0, 16, 5⟩] := by
  exact ⟨by decide, by decide, by decide, by decide, by decide⟩

end Claims

/-!
## `sievio.core.decode` (src/src/sievio/core/decode.py)

Byte decoding with BOM detection, the UTF-16 NUL heuristic, the
cp1252/latin-1 fallback, mojibake repair, and post-processing. Text is a
list of code points (`List ℕ`); bytes are `List ℕ` with values below 256.
-/

namespace SievioDecode

/-- Byte strings: every element below 256. -/
def ValidBytes (data : List ℕ) : Prop := ∀ b ∈ data, b < 256

/-- A Unicode scalar value: in range and not a surrogate. -/
def IsScalar (n : ℕ) : Prop := n < 0x110000 ∧ ¬ (0xD800 ≤ n ∧ n ≤ 0xDFFF)

/-- All code points of a text are Unicode scalar values (what it means for
the decoded result to be a valid Unicode string). -/
def ValidText (t : List ℕ) : Prop := ∀ c ∈ t, IsScalar c

/-- The `NormalizeForm` literal type. -/
inductive NormalizeForm
  | NFC | NFD | NFKC | NFKD
  deriving Repr, DecidableEq

/-- Explicit model of the `unicodedata` module used by the decoder:
`category0IsC n` is `unicodedata.category(chr(n))[0] == "C"` and
`normalize` is `unicodedata.normalize`. -/
structure UnicodeData where
  category0IsC : ℕ → Bool
  normalize : NormalizeForm → List ℕ → List ℕ

/-- `DecodeProvenance` with its defaults. -/
structure DecodeProvenance where
  decode_replacements : Bool := false
  mojibake_repaired : Bool := false
  controls_stripped : ℕ := 0
  newlines_normalized : Bool := false
  unicode_normalized : Bool := false
  deriving Repr, DecidableEq

/-- `DecodedText`. -/
structure DecodedText where
  text : List ℕ
  encoding : String
  had_replacement : Bool
  provenance : DecodeProvenance := {}
  deriving Repr, DecidableEq

/-- `_detect_bom(data)`: the `_BOMS` table probed longest-signature-first
(Python sorts the five signatures by length, descending, stably). -/
def _detect_bom (data : List ℕ) : Option String :=
  if [0x00, 0x00, 0xFE, 0xFF].isPrefixOf data then some "utf-32-be"
  else if [0xFF, 0xFE, 0x00, 0x00].isPrefixOf data then some "utf-32-le"
  else if [0xEF, 0xBB, 0xBF].isPrefixOf data then some "utf-8-sig"
  else if [0xFE, 0xFF].isPrefixOf data then some "utf-16-be"
  else if [0xFF, 0xFE].isPrefixOf data then some "utf-16-le"
  else none

/-- NUL counts of a byte sample at (even, odd) offsets. -/
def countNuls : List ℕ → ℕ × ℕ
  | [] => (0, 0)
  | b :: rest =>
      let p := countNuls rest
      ((if b = 0 then 1 else 0) + p.2, p.1)

/-- `_guess_utf16_endian_from_nuls(sample)`. -/
def _guess_utf16_endian_from_nuls (sample : List ℕ) : Option String :=
  if sample = [] then none else
  let even_nuls := (countNuls sample).1
  let odd_nuls := (countNuls sample).2
  let total_nuls := even_nuls + odd_nuls
  if total_nuls < max 4 (sample.length / 64) then none
  else if odd_nuls * 2 < even_nuls then some "utf-16-be"
  else if even_nuls * 2 < odd_nuls then some "utf-16-le"
  else none

/-- A UTF-8 continuation byte. -/
def utf8Cont (c : ℕ) : Bool := 0x80 ≤ c && c < 0xC0

/-- Decode one UTF-8 sequence starting with lead byte `b`: the resulting
code point and the remaining bytes. Rejects bad leads, bad continuations,
overlong forms, surrogates and values above U+10FFFF, as Python's strict
UTF-8 codec does. -/
def utf8DecodeOne (b : ℕ) (rest : List ℕ) : Option (ℕ × List ℕ) :=
  if b < 0x80 then some (b, rest)
  else if b < 0xC2 then none
  else if b < 0xE0 then
    match rest with
    | c1 :: rest2 =>
        if utf8Cont c1 then some ((b - 0xC0) * 0x40 + (c1 - 0x80), rest2) else none
    | [] => none
  else if b < 0xF0 then
    match rest with
    | c1 :: c2 :: rest2 =>
        if utf8Cont c1 && utf8Cont c2
            && (!(b = 0xE0) || 0xA0 ≤ c1) && (!(b = 0xED) || c1 < 0xA0) then
          some ((b - 0xE0) * 0x1000 + (c1 - 0x80) * 0x40 + (c2 - 0x80), rest2)
        else none
    | _ => none
  else if b < 0xF5 then
    match rest with
    | c1 :: c2 :: c3 :: rest2 =>
        if utf8Cont c1 && utf8Cont c2 && utf8Cont c3
            && (!(b = 0xF0) || 0x90 ≤ c1) && (!(b = 0xF4) || c1 < 0x90) then
          some ((b - 0xF0) * 0x40000 + (c1 - 0x80) * 0x1000
            + (c2 - 0x80) * 0x40 + (c3 - 0x80), rest2)
        else none
    | _ => none
  else none

/-- The strict UTF-8 decoding loop; the first argument is recursion fuel
(each step consumes at least one byte, so the input length suffices and
the fuel-exhausted case is unreachable). -/
def decodeUtf8Go : ℕ → List ℕ → Option (List ℕ)
  | _, [] => some []
  | 0, _ :: _ => none
  | fuel + 1, b :: rest =>
      match utf8DecodeOne b rest with
      | some (cp, rest2) => (decodeUtf8Go fuel rest2).map (cp :: ·)
      | none => none

/-- Strict UTF-8 decoding (as Python `bytes.decode("utf-8", "strict")`). -/
def decodeUtf8 (data : List ℕ) : Option (List ℕ) :=
  decodeUtf8Go data.length data

/-- One UTF-16 code unit from two bytes. -/
def utf16Unit (be : Bool) (b1 b2 : ℕ) : ℕ :=
  if be then b1 * 256 + b2 else b2 * 256 + b1

/-- Decode one UTF-16 unit or surrogate pair from `b1 b2 :: rest`
(strictly: lone surrogates rejected). -/
def utf16DecodeOne (be : Bool) (b1 b2 : ℕ) (rest : List ℕ) : Option (ℕ × List ℕ) :=
  let u := utf16Unit be b1 b2
  if u < 0xD800 || 0xDFFF < u then some (u, rest)
  else if u ≤ 0xDBFF then
    match rest with
    | b3 :: b4 :: rest2 =>
        let u2 := utf16Unit be b3 b4
        if 0xDC00 ≤ u2 && u2 ≤ 0xDFFF then
          some (0x10000 + (u - 0xD800) * 0x400 + (u2 - 0xDC00), rest2)
        else none
    | _ => none
  else none

/-- The strict UTF-16 decoding loop (fuel-based like `decodeUtf8Go`;
truncated input is rejected). -/
def decodeUtf16Go (be : Bool) : ℕ → List ℕ → Option (List ℕ)
  | _, [] => some []
  | 0, _ :: _ => none
  | _ + 1, [_] => none
  | fuel + 1, b1 :: b2 :: rest =>
      match utf16DecodeOne be b1 b2 rest with
      | some (cp, rest2) => (decodeUtf16Go be fuel rest2).map (cp :: ·)
      | none => none

/-- Strict UTF-16 decoding of the given endianness. -/
def decodeUtf16 (be : Bool) (data : List ℕ) : Option (List ℕ) :=
  decodeUtf16Go be data.length data

/-- One UTF-32 code unit from four bytes. -/
def utf32Unit (be : Bool) (b1 b2 b3 b4 : ℕ) : ℕ :=
  if be then ((b1 * 256 + b2) * 256 + b3) * 256 + b4
  else ((b4 * 256 + b3) * 256 + b2) * 256 + b1

/-- Strict UTF-32 decoding of the given endianness. -/
def decodeUtf32 (be : Bool) : List ℕ → Option (List ℕ)
  | [] => some []
  | b1 :: b2 :: b3 :: b4 :: rest =>
      let u := utf32Unit be b1 b2 b3 b4
      if u < 0x110000 && !(0xD800 ≤ u && u ≤ 0xDFFF) then
        (decodeUtf32 be rest).map (u :: ·)
      else none
  | _ => none

/-- `utf-8-sig`: strip the BOM when present, then strict UTF-8. -/
def decodeUtf8Sig (data : List ℕ) : Option (List ℕ) :=
  decodeUtf8 (if [0xEF, 0xBB, 0xBF].isPrefixOf data then data.drop 3 else data)

/-- The cp1252 decode table for one byte (`none` for the five unassigned
bytes 0x81, 0x8D, 0x8F, 0x90, 0x9D). -/
def cp1252Byte (b : ℕ) : Option ℕ :=
  if b < 0x80 || (0xA0 ≤ b && b ≤ 0xFF) then some b
  else match b with
  | 0x80 => some 0x20AC | 0x82 => some 0x201A | 0x83 => some 0x0192
  | 0x84 => some 0x201E | 0x85 => some 0x2026 | 0x86 => some 0x2020
  | 0x87 => some 0x2021 | 0x88 => some 0x02C6 | 0x89 => some 0x2030
  | 0x8A => some 0x0160 | 0x8B => some 0x2039 | 0x8C => some 0x0152
  | 0x8E => some 0x017D | 0x91 => some 0x2018 | 0x92 => some 0x2019
  | 0x93 => some 0x201C | 0x94 => some 0x201D | 0x95 => some 0x2022
  | 0x96 => some 0x2013 | 0x97 => some 0x2014 | 0x98 => some 0x02DC
  | 0x99 => some 0x2122 | 0x9A => some 0x0161 | 0x9B => some 0x203A
  | 0x9C => some 0x0153 | 0x9E => some 0x017E | 0x9F => some 0x0178
  | _ => none

/-- Strict cp1252 decoding. -/
def decodeCp1252 : List ℕ → Option (List ℕ)
  | [] => some []
  | b :: rest =>
      match cp1252Byte b with
      | some c => (decodeCp1252 rest).map (c :: ·)
      | none => none

/-- Strict cp1252 encoding of one code point (inverse of `cp1252Byte`). -/
def encodeCp1252Cp (c : ℕ) : Option ℕ :=
  if c < 0x80 || (0xA0 ≤ c && c ≤ 0xFF) then some c
  else match c with
  | 0x20AC => some 0x80 | 0x201A => some 0x82 | 0x0192 => some 0x83
  | 0x201E => some 0x84 | 0x2026 => some 0x85 | 0x2020 => some 0x86
  | 0x2021 => some 0x87 | 0x02C6 => some 0x88 | 0x2030 => some 0x89
  | 0x0160 => some 0x8A | 0x2039 => some 0x8B | 0x0152 => some 0x8C
  | 0x017D => some 0x8E | 0x2018 => some 0x91 | 0x2019 => some 0x92
  | 0x201C => some 0x93 | 0x201D => some 0x94 | 0x2022 => some 0x95
  | 0x2013 => some 0x96 | 0x2014 => some 0x97 | 0x02DC => some 0x98
  | 0x2122 => some 0x99 | 0x0161 => some 0x9A | 0x203A => some 0x9B
  | 0x0153 => some 0x9C | 0x017E => some 0x9E | 0x0178 => some 0x9F
  | _ => none

/-- Strict cp1252 encoding of a text. -/
def encodeCp1252 : List ℕ → Option (List ℕ)
  | [] => some []
  | c :: rest =>
      match encodeCp1252Cp c with
      | some b => (encodeCp1252 rest).map (b :: ·)
      | none => none

/-- Latin-1 decoding: every byte maps to the code point of the same value
(never fails, so `errors="replace"` never fires). -/
def decodeLatin1 (data : List ℕ) : List ℕ := data

/-- `_mojibake_score(s)`: count non-overlapping matches of `_MOJI_REGEX`,
scanning left to right with the alternatives tried in source order. -/
def _mojibake_score : List ℕ → ℕ
  | [] => 0
  | [c] => if c = 0xC2 || c = 0xFFFD then 1 else 0
  | c :: d :: rest2 =>
      if (0xC0 ≤ c && c ≤ 0xFF) && (0x80 ≤ d && d ≤ 0xFF) then
        1 + _mojibake_score rest2
      else if (c = 0xC3 || c = 0xE2) && d ≠ 10 then 1 + _mojibake_score rest2
      else if c = 0xC2 || c = 0xFFFD then 1 + _mojibake_score (d :: rest2)
      else _mojibake_score (d :: rest2)

/-- `_maybe_repair_cp1252_utf8(text_cp1252)`. -/
def _maybe_repair_cp1252_utf8 (t : List ℕ) : List ℕ :=
  if _mojibake_score t = 0 then t
  else match encodeCp1252 t with
  | none => t
  | some raw =>
      match decodeUtf8 raw with
      | none => t
      | some fixed =>
          if _mojibake_score fixed * 3 < max 1 (_mojibake_score t) then fixed else t

/-- `_normalize_newlines`: CRLF, then lone CR, to LF. -/
def normNewlines : List ℕ → List ℕ
  | [] => []
  | 13 :: 10 :: rest => 10 :: normNewlines rest
  | 13 :: rest => 10 :: normNewlines rest
  | c :: rest => c :: normNewlines rest

/-- The `_ZERO_WIDTH` set. -/
def inZeroWidth (n : ℕ) : Bool :=
  n = 0x200B || n = 0x200C || n = 0x200D || n = 0x2060 || n = 0xFEFF

/-- `_strip_unsafe_controls(s)`: keep LF and TAB, drop category-C and
zero-width characters; also count what was dropped. -/
def stripCtrl (ud : UnicodeData) (s : List ℕ) : List ℕ × ℕ :=
  let filtered := s.filter (fun c => (c = 10 || c = 9 || !ud.category0IsC c) && !inZeroWidth c)
  (filtered, s.length - filtered.length)

/-- `PostprocessResult`. -/
structure PostprocessResult where
  newlines_normalized : Bool := false
  controls_stripped : ℕ := 0
  unicode_normalized : Bool := false
  deriving Repr, DecidableEq

/-- `_postprocess(s, normalize=, strip_controls=)`. -/
def _postprocess (ud : UnicodeData) (s : List ℕ) (normalize : Option NormalizeForm)
    (strip_controls : Bool) : List ℕ × PostprocessResult :=
  let s1 := normNewlines s
  let newlines_normalized := decide (s1 ≠ s)
  let s2 := if strip_controls then (stripCtrl ud s1).1 else s1
  let controls_stripped := if strip_controls then (stripCtrl ud s1).2 else 0
  match normalize with
  | some form =>
      let s3 := ud.normalize form s2
      (s3, ⟨newlines_normalized, controls_stripped, decide (s3 ≠ s2)⟩)
  | none => (s2, ⟨newlines_normalized, controls_stripped, false⟩)

/-- The `_finalize` closure of `decode_bytes`. -/
def _finalize (ud : UnicodeData) (normalize : Option NormalizeForm)
    (strip_controls : Bool) (text : List ℕ) (encoding : String)
    (decode_replacements mojibake_repaired : Bool) : DecodedText :=
  let p := _postprocess ud text normalize strip_controls
  ⟨p.1, encoding, decode_replacements,
    ⟨decode_replacements, mojibake_repaired, p.2.controls_stripped,
      p.2.newlines_normalized, p.2.unicode_normalized⟩⟩

/-- Decode using the encoding named by `_detect_bom`. -/
def decodeByBomEncoding (enc : String) (data : List ℕ) : Option (List ℕ) :=
  if enc = "utf-8-sig" then decodeUtf8Sig data
  else if enc = "utf-16-be" then decodeUtf16 true data
  else if enc = "utf-16-le" then decodeUtf16 false data
  else if enc = "utf-32-be" then decodeUtf32 true data
  else if enc = "utf-32-le" then decodeUtf32 false data
  else none

/-- Step 3 of `decode_bytes`: cp1252 strict, else latin-1 with replacement
(which latin-1 never produces), then optional mojibake repair. -/
def _decode_fallback (ud : UnicodeData) (normalize : Option NormalizeForm)
    (strip_controls fix_mojibake : Bool) (data : List ℕ) : DecodedText :=
  let r : List ℕ × String × Bool :=
    match decodeCp1252 data with
    | some t => (t, "cp1252", false)
    | none => (decodeLatin1 data, "latin-1", (decodeLatin1 data).contains 0xFFFD)
  let text1252 := r.1
  let enc_used := r.2.1
  let decode_replacements := r.2.2
  let rep : List ℕ × Bool :=
    if fix_mojibake then
      let repaired := _maybe_repair_cp1252_utf8 text1252
      (repaired, decide (repaired ≠ text1252))
    else (text1252, false)
  _finalize ud normalize strip_controls rep.1 enc_used decode_replacements rep.2

/-- Steps 2 and 2b of `decode_bytes`: UTF-8 strict, then the UTF-16 NUL
heuristic, then the cp1252/latin-1 fallback. -/
def _decode_no_bom (ud : UnicodeData) (normalize : Option NormalizeForm)
    (strip_controls fix_mojibake : Bool) (data : List ℕ) : DecodedText :=
  match decodeUtf8 data with
  | some text => _finalize ud normalize strip_controls text "utf-8" false false
  | none =>
      match _guess_utf16_endian_from_nuls (data.take 4096) with
      | some enc =>
          match decodeUtf16 (enc = "utf-16-be") data with
          | some text => _finalize ud normalize strip_controls text enc false false
          | none => _decode_fallback ud normalize strip_controls fix_mojibake data
      | none => _decode_fallback ud normalize strip_controls fix_mojibake data

/-- `decode_bytes(data, normalize=, strip_controls=, fix_mojibake=)`. -/
def decode_bytes (ud : UnicodeData) (data : List ℕ)
    (normalize : Option NormalizeForm) (strip_controls fix_mojibake : Bool) :
    DecodedText :=
  if data = [] then ⟨[], "utf-8", false, {}⟩ else
  match _detect_bom data with
  | some enc =>
      match decodeByBomEncoding enc data with
      | some text => _finalize ud normalize strip_controls text enc false false
      | none => _decode_no_bom ud normalize strip_controls fix_mojibake data
  | none => _decode_no_bom ud normalize strip_controls fix_mojibake data

end SievioDecode

namespace SievioDecode

theorem utf8DecodeOne_scalar (b : ℕ) (rest : List ℕ) (cp : ℕ) (rest2 : List ℕ)
    (h : utf8DecodeOne b rest = some (cp, rest2)) : IsScalar cp := by
  unfold utf8DecodeOne at h
  split_ifs at h with h1 h2 h3 h4 h5
  · simp only [Option.some.injEq, Prod.mk.injEq] at h
    obtain ⟨rfl, rfl⟩ := h
    exact ⟨by omega, by omega⟩
  · split at h
    · split_ifs at h with hc
      simp only [utf8Cont, Bool.and_eq_true, decide_eq_true_eq] at hc
      simp only [Option.some.injEq, Prod.mk.injEq] at h
      obtain ⟨rfl, rfl⟩ := h
      exact ⟨by omega, by omega⟩
    · simp at h
  · split at h
    · split_ifs at h with hc
      simp only [utf8Cont, Bool.and_eq_true, Bool.or_eq_true, Bool.not_eq_eq_eq_not,
        Bool.not_true, decide_eq_true_eq, decide_eq_false_iff_not] at hc
      simp only [Option.some.injEq, Prod.mk.injEq] at h
      obtain ⟨rfl, rfl⟩ := h
      obtain ⟨⟨⟨hc1, hc2⟩, he0⟩, hed⟩ := hc
      constructor
      · omega
      · rcases he0 with he0 | he0 <;> rcases hed with hed | hed <;> omega
    · simp at h
  · split at h
    · split_ifs at h with hc
      simp only [utf8Cont, Bool.and_eq_true, Bool.or_eq_true, Bool.not_eq_eq_eq_not,
        Bool.not_true, decide_eq_true_eq, decide_eq_false_iff_not] at hc
      simp only [Option.some.injEq, Prod.mk.injEq] at h
      obtain ⟨rfl, rfl⟩ := h
      obtain ⟨⟨⟨⟨hc1, hc2⟩, hc3⟩, hf0⟩, hf4⟩ := hc
      constructor
      · rcases hf0 with hf0 | hf0 <;> rcases hf4 with hf4 | hf4 <;> omega
      · omega
    · simp at h

end SievioDecode

namespace SievioDecode

theorem decodeUtf8Go_valid (fuel : ℕ) :
    ∀ l t, decodeUtf8Go fuel l = some t → ValidText t := by
  induction fuel with
  | zero =>
      intro l t ht
      cases l with
      | nil =>
          obtain rfl : ([] : List ℕ) = t := by simpa [decodeUtf8Go] using ht
          intro c hc; simp at hc
      | cons b rest => simp [decodeUtf8Go] at ht
  | succ fuel ih =>
      intro l t ht
      cases l with
      | nil =>
          obtain rfl : ([] : List ℕ) = t := by simpa [decodeUtf8Go] using ht
          intro c hc; simp at hc
      | cons b rest =>
          rw [decodeUtf8Go] at ht
          split at ht
          · next cp rest2 hone =>
              simp only [Option.map_eq_some'] at ht
              obtain ⟨t', ht', rfl⟩ := ht
              intro c hc
              rcases List.mem_cons.mp hc with rfl | hc
              · exact utf8DecodeOne_scalar b rest c rest2 hone
              · exact ih rest2 t' ht' c hc
          · simp at ht

theorem decodeUtf8_valid (data : List ℕ) (t : List ℕ) (h : decodeUtf8 data = some t) :
    ValidText t := decodeUtf8Go_valid data.length data t h

end SievioDecode

namespace SievioDecode

theorem utf16DecodeOne_scalar (be : Bool) (b1 b2 : ℕ) (rest : List ℕ) (cp : ℕ)
    (rest2 : List ℕ) (h : utf16DecodeOne be b1 b2 rest = some (cp, rest2))
    (hb1 : b1 < 256) (hb2 : b2 < 256) : IsScalar cp := by
  have hu : utf16Unit be b1 b2 < 0x10000 := by
    unfold utf16Unit; split <;> omega
  unfold utf16DecodeOne at h
  dsimp only at h
  split_ifs at h with h1 h2
  · simp only [Bool.or_eq_true, decide_eq_true_eq] at h1
    simp only [Option.some.injEq, Prod.mk.injEq] at h
    obtain ⟨rfl, rfl⟩ := h
    exact ⟨by omega, by omega⟩
  · split at h
    · split_ifs at h with hc
      simp only [Bool.and_eq_true, decide_eq_true_eq] at hc
      simp only [Option.some.injEq, Prod.mk.injEq] at h
      obtain ⟨rfl, rfl⟩ := h
      simp only [Bool.or_eq_true, decide_eq_true_eq, not_or, not_lt] at h1
      constructor
      · omega
      · omega
    · simp at h

theorem decodeUtf16Go_valid (be : Bool) (fuel : ℕ) :
    ∀ l t, decodeUtf16Go be fuel l = some t → (∀ b ∈ l, b < 256) → ValidText t := by
  induction fuel with
  | zero =>
      intro l t ht hb
      cases l with
      | nil =>
          obtain rfl : ([] : List ℕ) = t := by simpa [decodeUtf16Go] using ht
          intro c hc; simp at hc
      | cons b rest => simp [decodeUtf16Go] at ht
  | succ fuel ih =>
      intro l t ht hb
      match l with
      | [] =>
          obtain rfl : ([] : List ℕ) = t := by simpa [decodeUtf16Go] using ht
          intro c hc; simp at hc
      | [b1] => simp [decodeUtf16Go] at ht
      | b1 :: b2 :: rest =>
          rw [decodeUtf16Go] at ht
          split at ht
          · next cp rest2 hone =>
              simp only [Option.map_eq_some'] at ht
              obtain ⟨t', ht', rfl⟩ := ht
              have hrest2 : ∀ b ∈ rest2, b < 256 := by
                intro b hbm
                refine hb b ?_
                have : rest2.Sublist rest := by
                  unfold utf16DecodeOne at hone
                  dsimp only at hone
                  split_ifs at hone with h1 h2
                  · simp only [Option.some.injEq, Prod.mk.injEq] at hone
                    obtain ⟨_, rfl⟩ := hone
                    exact List.Sublist.refl _
                  · split at hone
                    · split_ifs at hone
                      simp only [Option.some.injEq, Prod.mk.injEq] at hone
                      obtain ⟨_, rfl⟩ := hone
                      exact (List.sublist_cons_self _ _).trans (List.sublist_cons_self _ _)
                    · simp at hone
                simp only [List.mem_cons]
                exact Or.inr (Or.inr (this.mem hbm))
              intro c hc
              rcases List.mem_cons.mp hc with rfl | hc
              · exact utf16DecodeOne_scalar be b1 b2 rest c rest2 hone
                  (hb b1 (by simp)) (hb b2 (by simp))
              · exact ih rest2 t' ht' hrest2 c hc
          · simp at ht

theorem decodeUtf16_valid (be : Bool) (data t : List ℕ)
    (h : decodeUtf16 be data = some t) (hb : ∀ b ∈ data, b < 256) : ValidText t :=
  decodeUtf16Go_valid be data.length data t h hb

theorem decodeUtf32_valid (be : Bool) :
    ∀ l t, decodeUtf32 be l = some t → ValidText t := by
  intro l
  induction l using decodeUtf32.induct be with
  | case1 =>
      intro t ht
      obtain rfl : ([] : List ℕ) = t := by simpa [decodeUtf32] using ht
      intro c hc; simp at hc
  | case2 b1 b2 b3 b4 rest u hcond ih =>
      intro t ht
      rw [decodeUtf32] at ht
      rw [if_pos hcond, Option.map_eq_some'] at ht
      obtain ⟨t', ht', rfl⟩ := ht
      simp only [Bool.and_eq_true, Bool.not_eq_true', Bool.and_eq_false_iff,
        decide_eq_true_eq, decide_eq_false_iff_not, not_le] at hcond
      intro c hc2
      rcases List.mem_cons.mp hc2 with rfl | hc2
      · exact ⟨hcond.1, by rcases hcond.2 with h | h <;> omega⟩
      · exact ih t' ht' c hc2
  | case3 b1 b2 b3 b4 rest u hcond =>
      intro t ht
      rw [decodeUtf32] at ht
      rw [if_neg hcond] at ht
      simp at ht
  | case4 l hnil hcons =>
      intro t ht
      match l, hnil, hcons with
      | [], hnil, _ => exact absurd rfl hnil
      | [a], _, _ => simp [decodeUtf32] at ht
      | [a, b], _, _ => simp [decodeUtf32] at ht
      | [a, b, c], _, _ => simp [decodeUtf32] at ht
      | a :: b :: c :: d :: r, _, hcons => exact absurd rfl (hcons a b c d r)

end SievioDecode

namespace SievioDecode

theorem cp1252Byte_lt (b c : ℕ) (h : cp1252Byte b = some c) : c < 0xD800 := by
  unfold cp1252Byte at h
  split_ifs at h with h1
  · simp only [Bool.or_eq_true, Bool.and_eq_true, decide_eq_true_eq] at h1
    simp only [Option.some.injEq] at h
    omega
  · split at h <;> simp_all <;> omega

theorem decodeCp1252_valid : ∀ l t, decodeCp1252 l = some t → ValidText t := by
  intro l
  induction l with
  | nil =>
      intro t ht
      obtain rfl : ([] : List ℕ) = t := by simpa [decodeCp1252] using ht
      intro c hc; simp at hc
  | cons b rest ih =>
      intro t ht
      rw [decodeCp1252] at ht
      split at ht
      · next c hbyte =>
          simp only [Option.map_eq_some'] at ht
          obtain ⟨t', ht', rfl⟩ := ht
          intro d hd
          rcases List.mem_cons.mp hd with rfl | hd
          · have := cp1252Byte_lt b d hbyte
            exact ⟨by omega, by omega⟩
          · exact ih t' ht' d hd
      · simp at ht

theorem decodeUtf8Sig_valid (data t : List ℕ) (h : decodeUtf8Sig data = some t) :
    ValidText t := by
  unfold decodeUtf8Sig at h
  exact decodeUtf8_valid _ t h

theorem decodeLatin1_valid (data : List ℕ) (hb : ∀ b ∈ data, b < 256) :
    ValidText (decodeLatin1 data) := by
  intro c hc
  have := hb c hc
  exact ⟨by omega, by omega⟩

theorem repair_valid (t : List ℕ) (hv : ValidText t) :
    ValidText (_maybe_repair_cp1252_utf8 t) := by
  unfold _maybe_repair_cp1252_utf8
  split_ifs with h1
  · exact hv
  · split
    · exact hv
    · next raw hraw =>
        split
        · exact hv
        · next fixed hfixed =>
            split
            · exact decodeUtf8_valid raw fixed hfixed
            · exact hv

theorem normNewlines_mem (s : List ℕ) : ∀ c ∈ normNewlines s, c = 10 ∨ c ∈ s := by
  induction s using normNewlines.induct with
  | case1 => intro c hc; rw [normNewlines] at hc; simp at hc
  | case2 rest ih =>
      intro c hc
      rw [normNewlines] at hc
      rcases List.mem_cons.mp hc with rfl | hc
      · exact Or.inl rfl
      · rcases ih c hc with rfl | h
        · exact Or.inl rfl
        · simp [h]
  | case3 rest hne ih =>
      intro c hc
      rw [normNewlines] at hc
      case x_1 => exact hne
      rcases List.mem_cons.mp hc with rfl | hc
      · exact Or.inl rfl
      · rcases ih c hc with rfl | h
        · exact Or.inl rfl
        · simp [h]
  | case4 a rest h13 h1310 ih =>
      intro c hc
      rw [normNewlines] at hc
      case x_1 => exact h13
      case x_2 => exact h1310
      rcases List.mem_cons.mp hc with rfl | hc
      · simp
      · rcases ih c hc with rfl | h
        · exact Or.inl rfl
        · simp [h]

theorem normNewlines_valid (s : List ℕ) (hv : ValidText s) :
    ValidText (normNewlines s) := by
  intro c hc
  rcases normNewlines_mem s c hc with rfl | hc2
  · exact ⟨by omega, by omega⟩
  · exact hv c hc2

theorem _postprocess_valid (ud : UnicodeData) (s : List ℕ)
    (normalize : Option NormalizeForm) (strip : Bool)
    (hv : ValidText s)
    (hn : ∀ f u, ValidText u → ValidText (ud.normalize f u)) :
    ValidText (_postprocess ud s normalize strip).1 := by
  unfold _postprocess
  have h1 : ValidText (normNewlines s) := normNewlines_valid s hv
  have h2 : ValidText (if strip then (stripCtrl ud (normNewlines s)).1 else normNewlines s) := by
    split
    · intro c hc
      exact h1 c (List.mem_of_mem_filter hc)
    · exact h1
  cases normalize with
  | some form => exact hn form _ h2
  | none => exact h2

theorem _finalize_valid (ud : UnicodeData) (normalize : Option NormalizeForm)
    (strip : Bool) (text : List ℕ) (enc : String) (dr mr : Bool)
    (hv : ValidText text)
    (hn : ∀ f u, ValidText u → ValidText (ud.normalize f u)) :
    ValidText (_finalize ud normalize strip text enc dr mr).text :=
  _postprocess_valid ud text normalize strip hv hn

end SievioDecode

namespace SievioDecode

theorem decodeByBomEncoding_valid (enc : String) (data t : List ℕ)
    (h : decodeByBomEncoding enc data = some t) (hb : ∀ b ∈ data, b < 256) :
    ValidText t := by
  unfold decodeByBomEncoding at h
  split_ifs at h
  · exact decodeUtf8Sig_valid data t h
  · exact decodeUtf16_valid true data t h hb
  · exact decodeUtf16_valid false data t h (by
      intro b hbm
      exact hb b hbm)
  · exact decodeUtf32_valid true data t h
  · exact decodeUtf32_valid false data t h

theorem _decode_fallback_valid (ud : UnicodeData) (normalize : Option NormalizeForm)
    (strip fix : Bool) (data : List ℕ) (hb : ∀ b ∈ data, b < 256)
    (hn : ∀ f u, ValidText u → ValidText (ud.normalize f u)) :
    ValidText (_decode_fallback ud normalize strip fix data).text := by
  unfold _decode_fallback
  have hval : ValidText (match decodeCp1252 data with
      | some t => (t, ("cp1252" : String), false)
      | none => (decodeLatin1 data, ("latin-1" : String),
          (decodeLatin1 data).contains 0xFFFD)).1 := by
    split
    · next t ht => exact decodeCp1252_valid data t ht
    · exact decodeLatin1_valid data hb
  dsimp only
  split
  · refine _finalize_valid ud normalize strip _ _ _ _ ?_ hn
    exact repair_valid _ hval
  · exact _finalize_valid ud normalize strip _ _ _ _ hval hn

theorem _decode_no_bom_valid (ud : UnicodeData) (normalize : Option NormalizeForm)
    (strip fix : Bool) (data : List ℕ) (hb : ∀ b ∈ data, b < 256)
    (hn : ∀ f u, ValidText u → ValidText (ud.normalize f u)) :
    ValidText (_decode_no_bom ud normalize strip fix data).text := by
  unfold _decode_no_bom
  split
  · next text ht => exact _finalize_valid ud normalize strip _ _ _ _ (decodeUtf8_valid data text ht) hn
  · split
    · next enc henc =>
        split
        · next text ht =>
            exact _finalize_valid ud normalize strip _ _ _ _
              (decodeUtf16_valid _ data text ht hb) hn
        · exact _decode_fallback_valid ud normalize strip fix data hb hn
    · exact _decode_fallback_valid ud normalize strip fix data hb hn

end SievioDecode

namespace Claims

open SievioDecode

/-- A concrete instance of the `unicodedata` service for closed
evaluations: `category0IsC` holds exactly on the C0 and C1 control ranges
(the only category-C code points that can arise from the byte inputs used
below), and `normalize` is the identity (those inputs contain no
characters affected by Unicode normalization). -/
def udModel : UnicodeData where
  category0IsC n := n < 0x20 || (0x7F ≤ n && n ≤ 0x9F)
  normalize _ s := s

/-- C2 (counterexample): the replacement character can occur in
`decode_bytes(b).text` with `had_replacement` and `mojibake_repaired` both
false — the three bytes `EF BF BD` are the valid UTF-8 encoding of U+FFFD
itself, so the strict UTF-8 branch succeeds, passes it through, and sets
no flag. -/
theorem C2_counterexample :
    (decode_bytes udModel [0xEF, 0xBF, 0xBD] (none : Option NormalizeForm)
      false false).text.contains 0xFFFD = true ∧
    (decode_bytes udModel [0xEF, 0xBF, 0xBD] (none : Option NormalizeForm)
      false false).had_replacement = false ∧
    (decode_bytes udModel [0xEF, 0xBF, 0xBD] (none : Option NormalizeForm)
      false false).provenance.mojibake_repaired = false := by
  exact ⟨by decide, by decide, by decide⟩

/-- C2 (amended): for every byte string and every option combination,
`decode_bytes(b).text` is a valid Unicode string (every code point a
Unicode scalar value, assuming the normalization service preserves that);
but U+FFFD can appear in the output with `had_replacement` and
`mojibake_repaired` both unset when the input bytes themselves decode to
U+FFFD. -/
theorem C2_decode_valid (ud : UnicodeData) (data : List ℕ)
    (normalize : Option NormalizeForm) (strip fix : Bool)
    (hb : ValidBytes data)
    (hn : ∀ f u, ValidText u → ValidText (ud.normalize f u)) :
    ValidText (decode_bytes ud data normalize strip fix).text := by
  unfold decode_bytes
  split
  · intro c hc; simp at hc
  · split
    · next enc hbom =>
        split
        · next text hdec =>
            exact _finalize_valid ud normalize strip _ _ _ _
              (decodeByBomEncoding_valid enc data text hdec hb) hn
        · exact _decode_no_bom_valid ud normalize strip fix data hb hn
    · exact _decode_no_bom_valid ud normalize strip fix data hb hn

/-- C2 witness: the amended validity theorem applied to the counterexample
bytes with the concrete `unicodedata` model. -/
theorem C2_witness : ValidText (decode_bytes udModel [0xEF, 0xBF, 0xBD]
    (none : Option NormalizeForm) false false).text :=
  C2_decode_valid udModel [0xEF, 0xBF, 0xBD] none false false
    (by intro b hb; simp at hb; rcases hb with rfl | rfl | rfl <;> decide)
    (fun _ u hu => by simpa [udModel] using hu)

end Claims

namespace SievioDecode

theorem _finalize_had (ud : UnicodeData) (normalize : Option NormalizeForm)
    (strip : Bool) (text : List ℕ) (enc : String) (dr mr : Bool) :
    (_finalize ud normalize strip text enc dr mr).had_replacement = dr := rfl

theorem latin1_no_fffd (data : List ℕ) (hb : ValidBytes data) :
    (decodeLatin1 data).contains 0xFFFD = false := by
  rw [decodeLatin1]
  by_contra h
  rw [Bool.not_eq_false] at h
  have hm : (0xFFFD : ℕ) ∈ data := by simpa using h
  have := hb _ hm
  omega

theorem _decode_fallback_had (ud : UnicodeData) (normalize : Option NormalizeForm)
    (strip fix : Bool) (data : List ℕ) (hb : ValidBytes data) :
    (_decode_fallback ud normalize strip fix data).had_replacement = false := by
  unfold _decode_fallback
  have hdr : (match decodeCp1252 data with
      | some t => (t, ("cp1252" : String), false)
      | none => (decodeLatin1 data, ("latin-1" : String),
          (decodeLatin1 data).contains 0xFFFD)).2.2 = false := by
    split
    · rfl
    · exact latin1_no_fffd data hb
  dsimp only
  split
  · rw [_finalize_had]; exact hdr
  · rw [_finalize_had]; exact hdr

theorem _decode_no_bom_had (ud : UnicodeData) (normalize : Option NormalizeForm)
    (strip fix : Bool) (data : List ℕ) (hb : ValidBytes data) :
    (_decode_no_bom ud normalize strip fix data).had_replacement = false := by
  unfold _decode_no_bom
  split
  · rfl
  · split
    · split
      · rfl
      · exact _decode_fallback_had ud normalize strip fix data hb
    · exact _decode_fallback_had ud normalize strip fix data hb

end SievioDecode

namespace Claims

open SievioDecode

/-- C10: for every byte input and every option combination,
`decode_bytes` returns `had_replacement = False`: every branch except the
latin-1 fallback hard-codes `decode_replacements=False`, and latin-1 maps
every byte below 256 to the same code point, so `"�" in text1252` is
always false there. -/
theorem C10_had_replacement_always_false (ud : UnicodeData) (data : List ℕ)
    (normalize : Option NormalizeForm) (strip fix : Bool)
    (hb : ValidBytes data) :
    (decode_bytes ud data normalize strip fix).had_replacement = false := by
  unfold decode_bytes
  split
  · rfl
  · split
    · split
      · rfl
      · exact _decode_no_bom_had ud normalize strip fix data hb
    · exact _decode_no_bom_had ud normalize strip fix data hb

/-- C10 witness: the theorem applied to the bytes `C3 28` (an invalid
UTF-8 pair that reaches the cp1252 fallback). -/
theorem C10_witness :
    (decode_bytes udModel [0xC3, 0x28] (none : Option NormalizeForm)
      false false).had_replacement = false :=
  C10_had_replacement_always_false udModel [0xC3, 0x28] none false false
    (by intro b hb; simp at hb; rcases hb with rfl | rfl <;> decide)

end Claims


namespace Claims

open SievioDecode

end Claims

namespace RepoRecords

/-- Truncation to a 32-bit word, applied after every SHA-256 addition. -/
def w32 (n : ℕ) : ℕ := n % 4294967296

/-- 32-bit right rotation. -/
def rotr (n x : ℕ) : ℕ := w32 ((x >>> n) ||| (x <<< (32 - n)))

/-- The SHA-256 round constants. -/
def shaK : List ℕ :=
  [1116352408, 1899447441, 3049323471, 3921009573,
   961987163, 1508970993, 2453635748, 2870763221,
   3624381080, 310598401, 607225278, 1426881987,
   1925078388, 2162078206, 2614888103, 3248222580,
   3835390401, 4022224774, 264347078, 604807628,
   770255983, 1249150122, 1555081692, 1996064986,
   2554220882, 2821834349, 2952996808, 3210313671,
   3336571891, 3584528711, 113926993, 338241895,
   666307205, 773529912, 1294757372, 1396182291,
   1695183700, 1986661051, 2177026350, 2456956037,
   2730485921, 2820302411, 3259730800, 3345764771,
   3516065817, 3600352804, 4094571909, 275423344,
   430227734, 506948616, 659060556, 883997877,
   958139571, 1322822218, 1537002063, 1747873779,
   1955562222, 2024104815, 2227730452, 2361852424,
   2428436474, 2756734187, 3204031479, 3329325298]

/-- The SHA-256 initial hash value. -/
def shaH0 : List ℕ :=
  [1779033703, 3144134277, 1013904242, 2773480762,
   1359893119, 2600822924, 528734635, 1541459225]

/-- Big-endian 8-byte encoding (of the bit length in the SHA-256 tail). -/
def be64 (n : ℕ) : List ℕ :=
  [(n >>> 56) % 256, (n >>> 48) % 256, (n >>> 40) % 256, (n >>> 32) % 256,
   (n >>> 24) % 256, (n >>> 16) % 256, (n >>> 8) % 256, n % 256]

/-- SHA-256 padding: append `80`, zeros to 56 mod 64, and the bit length. -/
def sha256Pad (msg : List ℕ) : List ℕ :=
  msg ++ 0x80 :: List.replicate ((119 - msg.length % 64) % 64) 0
    ++ be64 (msg.length * 8)

/-- Load big-endian 32-bit words from bytes. -/
def wordsOfBytes : List ℕ → List ℕ
  | b1 :: b2 :: b3 :: b4 :: rest =>
      ((b1 <<< 24) ||| (b2 <<< 16) ||| (b3 <<< 8) ||| b4) :: wordsOfBytes rest
  | _ => []

/-- Extend the 16-word schedule by `n` further words. -/
def extendWGo : ℕ → List ℕ → List ℕ
  | 0, ws => ws
  | n + 1, ws =>
      let i := ws.length
      let w15 := ws.getD (i - 15) 0
      let w2 := ws.getD (i - 2) 0
      let w16 := ws.getD (i - 16) 0
      let w7 := ws.getD (i - 7) 0
      let s0 := rotr 7 w15 ^^^ rotr 18 w15 ^^^ (w15 >>> 3)
      let s1 := rotr 17 w2 ^^^ rotr 19 w2 ^^^ (w2 >>> 10)
      extendWGo n (ws ++ [w32 (w16 + s0 + w7 + s1)])

/-- The eight SHA-256 working variables. -/
structure Sha8 where
  a : ℕ
  b : ℕ
  c : ℕ
  d : ℕ
  e : ℕ
  f : ℕ
  g : ℕ
  h : ℕ

/-- One SHA-256 compression round for a (constant, schedule word) pair. -/
def shaRound (s : Sha8) (kw : ℕ × ℕ) : Sha8 :=
  let S1 := rotr 6 s.e ^^^ rotr 11 s.e ^^^ rotr 25 s.e
  let ch := (s.e &&& s.f) ^^^ ((s.e ^^^ 0xFFFFFFFF) &&& s.g)
  let t1 := w32 (s.h + S1 + ch + kw.1 + kw.2)
  let S0 := rotr 2 s.a ^^^ rotr 13 s.a ^^^ rotr 22 s.a
  let mj := (s.a &&& s.b) ^^^ (s.a &&& s.c) ^^^ (s.b &&& s.c)
  let t2 := w32 (S0 + mj)
  ⟨w32 (t1 + t2), s.a, s.b, s.c, w32 (s.d + t1), s.e, s.f, s.g⟩

/-- Compress one 64-byte block into the hash value. -/
def shaBlock (hv : List ℕ) (block : List ℕ) : List ℕ :=
  let ws := extendWGo 48 (wordsOfBytes block)
  let s0 : Sha8 := ⟨hv.getD 0 0, hv.getD 1 0, hv.getD 2 0, hv.getD 3 0,
    hv.getD 4 0, hv.getD 5 0, hv.getD 6 0, hv.getD 7 0⟩
  let s := (shaK.zip ws).foldl shaRound s0
  [w32 (hv.getD 0 0 + s.a), w32 (hv.getD 1 0 + s.b), w32 (hv.getD 2 0 + s.c),
   w32 (hv.getD 3 0 + s.d), w32 (hv.getD 4 0 + s.e), w32 (hv.getD 5 0 + s.f),
   w32 (hv.getD 6 0 + s.g), w32 (hv.getD 7 0 + s.h)]

/-- Fold the compression over all 64-byte blocks. The fuel is the byte
count, which always dominates the block count. -/
def shaBlocksGo : ℕ → List ℕ → List ℕ → List ℕ
  | 0, hv, _ => hv
  | _ + 1, hv, [] => hv
  | n + 1, hv, bytes => shaBlocksGo n (shaBlock hv (bytes.take 64)) (bytes.drop 64)

/-- Lowercase hex digit. -/
def hexChar (n : ℕ) : Char := if n < 10 then Char.ofNat (48 + n) else Char.ofNat (87 + n)

/-- Two lowercase hex digits of a byte. -/
def hexByte (b : ℕ) : List Char := [hexChar (b / 16 % 16), hexChar (b % 16)]

/-- Big-endian bytes of a 32-bit word. -/
def bytesOfWord (w : ℕ) : List ℕ :=
  [(w >>> 24) % 256, (w >>> 16) % 256, (w >>> 8) % 256, w % 256]

/-- `hashlib.sha256(msg).hexdigest()` over a byte list. -/
def sha256Hex (msg : List ℕ) : List Char :=
  let padded := sha256Pad msg
  ((shaBlocksGo padded.length shaH0 padded).flatMap bytesOfWord).flatMap hexByte

/-- UTF-8 encoding of one code point. -/
def utf8EncodeChar (c : ℕ) : List ℕ :=
  if c < 0x80 then [c]
  else if c < 0x800 then [0xC0 + c / 64, 0x80 + c % 64]
  else if c < 0x10000 then [0xE0 + c / 4096, 0x80 + c / 64 % 64, 0x80 + c % 64]
  else [0xF0 + c / 262144, 0x80 + c / 4096 % 64, 0x80 + c / 64 % 64, 0x80 + c % 64]

/-- `text.encode("utf-8")` over a text modelled as its code points. -/
def utf8Encode (t : List ℕ) : List ℕ := t.flatMap utf8EncodeChar

/-- `sha256_text(text)`: hex sha256 of the UTF-8 encoded text. -/
def sha256_text (text : List ℕ) : String := String.mk (sha256Hex (utf8Encode text))

end RepoRecords

namespace RepoRecords

/-- `CODE_EXTS`. -/
def CODE_EXTS : List String :=
  [".py", ".pyw", ".py3", ".ipynb",
   ".ps1", ".psm1", ".psd1", ".bat", ".cmd", ".sh", ".bash", ".zsh",
   ".c", ".h", ".cpp", ".hpp", ".cc", ".hh", ".cxx", ".hxx",
   ".cs", ".java", ".kt", ".kts", ".scala", ".go", ".rs", ".swift",
   ".ts", ".tsx", ".js", ".jsx", ".mjs", ".cjs",
   ".rb", ".php", ".pl", ".pm",
   ".lua", ".r", ".jl",
   ".sql", ".sparql",
   ".json", ".jsonc", ".yaml", ".yml", ".toml", ".ini", ".cfg",
   ".xml", ".xslt",
   ".yara", ".yar", ".sigma", ".ndjson", ".log"]

/-- `DOC_EXTS`. -/
def DOC_EXTS : List String := [".md", ".mdx", ".rst", ".adoc", ".txt"]

/-- `EXT_LANG`. -/
def EXT_LANG : List (String × String) :=
  [(".py", "python"), (".ipynb", "python"),
   (".ps1", "powershell"), (".psm1", "powershell"), (".psd1", "powershell"),
   (".bat", "batch"), (".cmd", "batch"),
   (".sh", "bash"), (".bash", "bash"), (".zsh", "zsh"),
   (".c", "c"), (".h", "c"),
   (".cpp", "cpp"), (".hpp", "cpp"), (".cc", "cpp"), (".hh", "cpp"),
   (".cxx", "cpp"), (".hxx", "cpp"),
   (".cs", "csharp"), (".java", "java"),
   (".kt", "kotlin"), (".kts", "kotlin"), (".scala", "scala"),
   (".go", "go"), (".rs", "rust"), (".swift", "swift"),
   (".ts", "typescript"), (".tsx", "typescript"),
   (".js", "javascript"), (".jsx", "javascript"),
   (".mjs", "javascript"), (".cjs", "javascript"),
   (".rb", "ruby"), (".php", "php"), (".pl", "perl"), (".pm", "perl"),
   (".lua", "lua"), (".r", "r"), (".jl", "julia"),
   (".sql", "sql"), (".sparql", "sparql"),
   (".json", "json"), (".jsonc", "json"),
   (".yaml", "yaml"), (".yml", "yaml"), (".toml", "toml"),
   (".ini", "ini"), (".cfg", "ini"),
   (".xml", "xml"), (".xslt", "xml"),
   (".yara", "yara"), (".yar", "yara"), (".sigma", "sigma"),
   (".ndjson", "ndjson"), (".log", "log"),
   (".md", "markdown"), (".mdx", "markdown"), (".rst", "restructuredtext"),
   (".adoc", "asciidoc"), (".txt", "text")]

/-- `LanguageConfig` (defaults mirror the module tables). -/
structure LanguageConfig where
  code_exts : List String := CODE_EXTS
  doc_exts : List String := DOC_EXTS
  ext_lang : List (String × String) := EXT_LANG

/-- `DEFAULT_LANGCFG`. -/
def DEFAULT_LANGCFG : LanguageConfig := {}

/-- ASCII lowering of a string (`str.lower()` on the ASCII paths used
here). -/
def strLower (s : String) : String := String.mk (s.data.map Char.toLower)

/-- Split a character list on `/`. -/
def splitSlashGo (cur : List Char) : List Char → List (List Char)
  | [] => [cur.reverse]
  | c :: rest =>
      if c = '/' then cur.reverse :: splitSlashGo [] rest
      else splitSlashGo (c :: cur) rest

/-- `Path(p).name`: the last path component, with empty and `.` components
dropped as `pathlib` does. -/
def pathName (p : String) : String :=
  let comps := (splitSlashGo [] p.data).filter
    (fun s => !s.isEmpty && !(s == ['.']))
  String.mk (comps.getLastD [])

/-- `Path(p).suffix`: `name[i:]` for the last dot index `i` when
`0 < i < len(name) - 1`, else the empty string. -/
def pathSuffix (p : String) : String :=
  let name := (pathName p).data
  match (name.enum.filter (fun q => q.2 == '.')).getLast? with
  | some iv =>
      if 0 < iv.1 ∧ iv.1 < name.length - 1 then String.mk (name.drop iv.1)
      else ""
  | none => ""

/-- `guess_lang_from_path(path, cfg)`: `(kind, lang)`. -/
def guess_lang_from_path (path : String) (cfg : Option LanguageConfig) :
    String × String :=
  let cfg := cfg.getD DEFAULT_LANGCFG
  let ext := strLower (pathSuffix path)
  let kind := if cfg.code_exts.contains ext then "code"
    else if cfg.doc_exts.contains ext then "doc"
    else "doc"
  let lang := match cfg.ext_lang.lookup ext with
    | some l => l
    | none => match ext.data with
      | '.' :: c :: rest => String.mk (c :: rest)
      | _ => "text"
  (kind, lang)

/-- `str.capitalize()` (ASCII). -/
def pyCapitalize (s : String) : String :=
  match s.data with
  | [] => ""
  | c :: t => String.mk (Char.toUpper c :: t.map Char.toLower)

/-- `lstrip(".")`. -/
def stripDots (s : String) : String := String.mk (s.data.dropWhile (· == '.'))

/-- The presentation-name `overrides` table in `build_record`. -/
def langOverrides : List (String × String) :=
  [("ipynb", "Python"), ("ps1", "PowerShell"), ("psm1", "PowerShell"),
   ("psd1", "PowerShell"), ("js", "JavaScript"), ("ts", "TypeScript"),
   ("tsx", "TypeScript"), ("jsx", "JavaScript"), ("yml", "YAML"),
   ("md", "Markdown"), ("rst", "reStructuredText"), ("ndjson", "NDJSON"),
   ("json", "JSON"), ("xml", "XML"), ("ini", "INI"), ("toml", "TOML")]

/-- A JSON-able metadata value. -/
inductive JVal where
  | s : String → JVal
  | i : ℤ → JVal
  | b : Bool → JVal
  deriving Repr, DecidableEq

/-- The record returned by `build_record`: the text (as code points) and
the ordered `meta` mapping. -/
structure RecordOut where
  text : List ℕ
  meta : List (String × JVal)

/-- Drop the `None`-valued metadata entries, keeping order. -/
def dropNone (l : List (String × Option JVal)) : List (String × JVal) :=
  l.filterMap (fun kv => kv.2.map (fun v => (kv.1, v)))

/-- Merge `extra_meta`, inserting only keys not already present. -/
def mergeExtra : List (String × JVal) → List (String × JVal) → List (String × JVal)
  | meta, [] => meta
  | meta, (k, v) :: rest =>
      mergeExtra (if (meta.lookup k).isSome then meta else meta ++ [(k, v)]) rest

/-- `build_record(...)`. The text is modelled as its list of code points;
`count_tokens` is absent from the sources under `src/` and is passed as an
explicit function parameter. -/
def build_record (text : List ℕ) (rel_path : String)
    (repo_full_name repo_url license_id lang : Option String)
    (encoding : String) (had_replacement : Bool)
    (chunk_id n_chunks : Option ℤ)
    (extra_meta : List (String × JVal))
    (countTokens : List ℕ → String → ℤ)
    (langcfg : Option LanguageConfig) : RecordOut :=
  let rp := String.mk (rel_path.data.map (fun c => if c = '\\' then '/' else c))
  let kl := guess_lang_from_path rp langcfg
  let base := if kl.2 = "" then "text" else pyCapitalize kl.2
  let computed := (langOverrides.lookup (stripDots (strLower (pathSuffix rp)))).getD base
  let lang2 : String := match lang with
    | some l => if l = "" then computed else l
    | none => computed
  let bcount : ℤ := ((utf8Encode text).length : ℤ)
  let tokens := countTokens text (if kl.1 = "code" then "code" else "doc")
  let fallback : Option JVal := match repo_full_name with
    | some r => if r = "" then none else some (JVal.s ("https://github.com/" ++ r))
    | none => none
  let sourceVal : Option JVal := match repo_url with
    | some u => if u = "" then fallback else some (JVal.s u)
    | none => fallback
  let cid : ℤ := match chunk_id with | some i => if i = 0 then 1 else i | none => 1
  let nch : ℤ := match n_chunks with | some i => if i = 0 then 1 else i | none => 1
  let meta0 : List (String × Option JVal) :=
    [("source", sourceVal),
     ("repo", repo_full_name.map JVal.s),
     ("path", some (JVal.s rp)),
     ("license", license_id.map JVal.s),
     ("lang", some (JVal.s lang2)),
     ("chunk_id", some (JVal.i cid)),
     ("n_chunks", some (JVal.i nch)),
     ("encoding", some (JVal.s encoding)),
     ("had_replacement", some (JVal.b had_replacement)),
     ("sha256", some (JVal.s (sha256_text text))),
     ("tokens", some (JVal.i tokens)),
     ("bytes", some (JVal.i bcount))]
  ⟨text, mergeExtra (dropNone meta0) extra_meta⟩

end RepoRecords

namespace RepoRecords

theorem lookup_append (l1 l2 : List (String × JVal)) (k : String) :
    (l1 ++ l2).lookup k = ((l1.lookup k).or (l2.lookup k)) := by
  induction l1 with
  | nil => simp [List.lookup]
  | cons kv t ih =>
      cases kv with
      | mk k1 v1 =>
          by_cases hk : k = k1
          · simp [List.lookup, hk]
          · have hb : (k == k1) = false := by
              simpa using hk
            simp [List.lookup, hb, ih]

theorem lookup_mergeExtra (meta extra : List (String × JVal)) (k : String)
    (hs : (meta.lookup k).isSome) :
    (mergeExtra meta extra).lookup k = meta.lookup k := by
  induction extra generalizing meta with
  | nil => rfl
  | cons kv rest ih =>
      cases kv with
      | mk k2 v2 =>
          rw [mergeExtra]
          by_cases h2 : (meta.lookup k2).isSome
          · rw [if_pos h2]; exact ih meta hs
          · rw [if_neg h2]
            have hl : (meta ++ [(k2, v2)]).lookup k = meta.lookup k := by
              rw [lookup_append]
              obtain ⟨v, hv⟩ := Option.isSome_iff_exists.mp hs
              rw [hv]; rfl
            rw [ih _ (by rw [hl]; exact hs), hl]

theorem meta_lookup_tail (sv rv lv : Option JVal)
    (pv lgv cv nv ev hb sh tk bt : JVal) :
    (dropNone [("source", sv), ("repo", rv), ("path", some pv),
      ("license", lv), ("lang", some lgv), ("chunk_id", some cv),
      ("n_chunks", some nv), ("encoding", some ev),
      ("had_replacement", some hb), ("sha256", some sh),
      ("tokens", some tk), ("bytes", some bt)]).lookup "sha256" = some sh ∧
    (dropNone [("source", sv), ("repo", rv), ("path", some pv),
      ("license", lv), ("lang", some lgv), ("chunk_id", some cv),
      ("n_chunks", some nv), ("encoding", some ev),
      ("had_replacement", some hb), ("sha256", some sh),
      ("tokens", some tk), ("bytes", some bt)]).lookup "bytes" = some bt := by
  cases sv <;> cases rv <;> cases lv <;>
    simp [dropNone, List.lookup]

end RepoRecords

namespace Claims

open RepoRecords

/-- C4: every record built by `build_record` carries `meta.sha256` equal
to the lowercase hex SHA-256 digest of the UTF-8 encoding of the record's
own (unchanged) text, and `meta.bytes` equal to the UTF-8 byte length of
that text — for every argument combination, including `extra_meta`
entries that try to supply conflicting `sha256`/`bytes` keys (they are
skipped because the keys already exist). -/
theorem C4_sha256_and_bytes (text : List ℕ) (rel_path : String)
    (repo_full_name repo_url license_id lang : Option String)
    (encoding : String) (had_replacement : Bool)
    (chunk_id n_chunks : Option ℤ)
    (extra_meta : List (String × JVal))
    (countTokens : List ℕ → String → ℤ)
    (langcfg : Option LanguageConfig) :
    (build_record text rel_path repo_full_name repo_url license_id lang
      encoding had_replacement chunk_id n_chunks extra_meta countTokens
      langcfg).text = text ∧
    (build_record text rel_path repo_full_name repo_url license_id lang
      encoding had_replacement chunk_id n_chunks extra_meta countTokens
      langcfg).meta.lookup "sha256" = some (JVal.s (sha256_text text)) ∧
    (build_record text rel_path repo_full_name repo_url license_id lang
      encoding had_replacement chunk_id n_chunks extra_meta countTokens
      langcfg).meta.lookup "bytes"
      = some (JVal.i ((utf8Encode text).length : ℤ)) := by
  unfold build_record
  refine ⟨rfl, ?_, ?_⟩
  · rw [lookup_mergeExtra _ _ _
      (by rw [(meta_lookup_tail _ _ _ _ _ _ _ _ _ _ _ _).1]; rfl)]
    exact (meta_lookup_tail _ _ _ _ _ _ _ _ _ _ _ _).1
  · rw [lookup_mergeExtra _ _ _
      (by rw [(meta_lookup_tail _ _ _ _ _ _ _ _ _ _ _ _).2]; rfl)]
    exact (meta_lookup_tail _ _ _ _ _ _ _ _ _ _ _ _).2

end Claims

namespace RepoQC

/-- A duplicate-family entry: `{"count": ..., "examples": [...]}`. -/
structure FamEntry where
  count : ℕ
  examples : List String
  deriving Repr, DecidableEq

/-- Python truthiness of an optional string (`None` and `""` falsy). -/
def famTruthy : Option String → Bool
  | none => false
  | some s => !(s == "")

/-- `a or b` over optional strings. -/
def pyOrStr : Option String → Option String → Option String
  | some s, b => if s = "" then b else some s
  | none, b => b

/-- The body of `update_dup_family_counts` applied to one entry:
increment the count, then append the path example when the path is
truthy, fewer than `max_examples = 3` samples exist, and it is new. -/
def updEntry (e : FamEntry) (path : Option String) : FamEntry :=
  let e2 : FamEntry := { e with count := e.count + 1 }
  match path with
  | some p =>
      if !(p == "") && e2.examples.length < 3 && !(e2.examples.contains p)
      then { e2 with examples := e2.examples ++ [p] } else e2
  | none => e2

/-- `update_dup_family_counts(storage, family_id, path)`; `setdefault`
keeps insertion order, so a fresh family is appended at the end. -/
def update_dup_family_counts (storage : List (String × FamEntry))
    (family_id path : Option String) : List (String × FamEntry) :=
  match family_id with
  | none => storage
  | some fid =>
      if fid = "" then storage
      else if (storage.lookup fid).isSome then
        storage.map (fun kv => if kv.1 = fid then (kv.1, updEntry kv.2 path) else kv)
      else storage ++ [(fid, updEntry ⟨0, []⟩ path)]

/-- The fields of a `qc_result` row that `QCSummaryTracker.observe`
reads. `near_dup` holds `bool(qc_result.get("near_dup"))`; `score` is
`None` both when the key is absent and when `float()` on it fails. -/
structure QCResult where
  dup_family_id : Option String := none
  doc_id : Option String := none
  path : Option String := none
  near_dup : Bool := false
  score : Option PyNum.PyFloat := none

/-- A row of the `top_dup_families` snapshot. -/
structure TopFam where
  dup_family_id : String
  count : ℕ
  examples : List String
  deriving Repr, DecidableEq

/-- `QCSummaryTracker` with its dataclass defaults (`QCMode.INLINE` is
the string "inline"; the `config` module is absent from `src/`). -/
structure QCSummaryTracker where
  enabled : Bool := false
  mode : String := "inline"
  min_score : Option PyNum.PyFloat := none
  drop_near_dups : Bool := false
  scored : ℕ := 0
  kept : ℕ := 0
  dropped_low_score : ℕ := 0
  dropped_near_dup : ℕ := 0
  errors : ℕ := 0
  candidates_low_score : ℕ := 0
  candidates_near_dup : ℕ := 0
  dup_families : List (String × FamEntry) := []
  top_dup_snapshot : List TopFam := []

/-- `QCSummaryTracker._is_low_score(qc_result)`. -/
def _is_low_score (t : QCSummaryTracker) (q : QCResult) : Bool :=
  match t.min_score with
  | none => false
  | some ms =>
      match q.score with
      | none => false
      | some sv => PyNum.PyFloat.blt sv ms

/-- Lines 55-59 of `observe`: the duplicate-family bookkeeping
(`family_id = dup_family_id or doc_id`; update counts and invalidate the
snapshot when the id is truthy). -/
def observeFamilies (t : QCSummaryTracker) (q : QCResult) : QCSummaryTracker :=
  let family_id := pyOrStr q.dup_family_id q.doc_id
  if famTruthy family_id then
    let t1 := { t with
      dup_families := update_dup_family_counts t.dup_families family_id q.path }
    if t1.top_dup_snapshot.isEmpty then t1
    else { t1 with top_dup_snapshot := [] }
  else t

/-- `QCSummaryTracker.observe(qc_result, apply_gates=)`: the updated
tracker and the keep decision. -/
def observe (t0 : QCSummaryTracker) (q : QCResult) (apply_gates : Bool) :
    QCSummaryTracker × Bool :=
  let t2 := observeFamilies { t0 with scored := t0.scored + 1 } q
  let low_score := _is_low_score t2 q
  let near_dup := q.near_dup
  let t3 := if low_score then
      { t2 with candidates_low_score := t2.candidates_low_score + 1 } else t2
  let t4 := if near_dup then
      { t3 with candidates_near_dup := t3.candidates_near_dup + 1 } else t3
  let gated : QCSummaryTracker × Bool :=
    if apply_gates && low_score then
      ({ t4 with dropped_low_score := t4.dropped_low_score + 1 }, false)
    else if apply_gates && t4.drop_near_dups && near_dup then
      ({ t4 with dropped_near_dup := t4.dropped_near_dup + 1 }, false)
    else (t4, true)
  if gated.2 then ({ gated.1 with kept := gated.1.kept + 1 }, true) else gated

/-- `InlineQCController.process_record(record)` over an abstract record
type: the scorer may raise (modelled as `Except`); metadata merging and
`_mark_qc_error` are passed as (total) functions. The result is the
updated tracker and the kept record, `none` when dropped, or `Except.error`
when `fail_on_error` re-raises. -/
def process_record {R : Type} (scorer : R → Except String QCResult)
    (merge : R → QCResult → R) (mark_qc_error : R → R)
    (fail_on_error enforce_drops : Bool)
    (summary : QCSummaryTracker) (record : R) :
    Except String (QCSummaryTracker × Option R) :=
  match scorer record with
  | Except.error e =>
      let s := { summary with errors := summary.errors + 1 }
      if fail_on_error then Except.error e
      else Except.ok (s, if enforce_drops then none else some (mark_qc_error record))
  | Except.ok q =>
      let ob := observe summary q enforce_drops
      let rec2 := merge record q
      if ob.2 then Except.ok (ob.1, some rec2) else Except.ok (ob.1, none)

theorem _is_low_score_eq (t t' : QCSummaryTracker) (q : QCResult)
    (h : t.min_score = t'.min_score) : _is_low_score t q = _is_low_score t' q := by
  unfold _is_low_score
  rw [h]

end RepoQC

namespace RepoQC

end RepoQC

namespace RepoQC

theorem observeFamilies_fields (t : QCSummaryTracker) (q : QCResult) :
    (observeFamilies t q).min_score = t.min_score ∧
    (observeFamilies t q).drop_near_dups = t.drop_near_dups ∧
    (observeFamilies t q).scored = t.scored ∧
    (observeFamilies t q).kept = t.kept ∧
    (observeFamilies t q).dropped_low_score = t.dropped_low_score ∧
    (observeFamilies t q).dropped_near_dup = t.dropped_near_dup := by
  unfold observeFamilies
  dsimp only
  split_ifs <;> exact ⟨rfl, rfl, rfl, rfl, rfl, rfl⟩

set_option maxHeartbeats 2000000 in
theorem observe_gate (t : QCSummaryTracker) (q : QCResult) :
    ((observe t q true).1.scored = t.scored + 1) ∧
    (_is_low_score t q = true →
      (observe t q true).2 = false ∧
      (observe t q true).1.dropped_low_score = t.dropped_low_score + 1 ∧
      (observe t q true).1.dropped_near_dup = t.dropped_near_dup ∧
      (observe t q true).1.kept = t.kept) ∧
    (_is_low_score t q = false → t.drop_near_dups = true → q.near_dup = true →
      (observe t q true).2 = false ∧
      (observe t q true).1.dropped_near_dup = t.dropped_near_dup + 1 ∧
      (observe t q true).1.dropped_low_score = t.dropped_low_score ∧
      (observe t q true).1.kept = t.kept) ∧
    (_is_low_score t q = false → (t.drop_near_dups && q.near_dup) = false →
      (observe t q true).2 = true ∧
      (observe t q true).1.kept = t.kept + 1 ∧
      (observe t q true).1.dropped_low_score = t.dropped_low_score ∧
      (observe t q true).1.dropped_near_dup = t.dropped_near_dup) := by
  obtain ⟨hms, hdnd, hsc, hkp, hdl, hdn⟩ :=
    observeFamilies_fields { t with scored := t.scored + 1 } q
  dsimp only at hms hdnd hsc hkp hdl hdn
  unfold observe
  dsimp only
  set t2 := observeFamilies { t with scored := t.scored + 1 } q with ht2
  have hlow : _is_low_score t2 q = _is_low_score t q :=
    _is_low_score_eq t2 t q (by rw [hms])
  rw [hlow, hdnd]
  refine ⟨?_, ?_, ?_, ?_⟩ <;>
  · intros
    by_cases hls : _is_low_score t q = true <;>
      by_cases hn : q.near_dup = true <;>
        by_cases hd : t.drop_near_dups = true <;>
          simp_all [hsc, hkp, hdl, hdn]

end RepoQC

namespace Claims

open RepoQC

/-- C3: with drops enforced, `process_record` on a successfully scored
record drops it and increments `dropped_low_score` when it is low-score,
otherwise drops it and increments `dropped_near_dup` when near-duplicate
dropping is on and the scorer flagged `near_dup`, and otherwise keeps it
(returning the meta-merged record) and increments `kept`; a record that is
both low-score and near-duplicate counts only toward `dropped_low_score`.
-/
theorem C3_inline_gate {R : Type} (scorer : R → Except String QCResult)
    (merge : R → QCResult → R) (mark_qc_error : R → R) (fail : Bool)
    (t : QCSummaryTracker) (rec : R) (q : QCResult)
    (hs : scorer rec = Except.ok q) :
    ∃ t' res,
      process_record scorer merge mark_qc_error fail true t rec
        = Except.ok (t', res) ∧
      t'.scored = t.scored + 1 ∧
      (_is_low_score t q = true →
        res = none ∧ t'.dropped_low_score = t.dropped_low_score + 1 ∧
        t'.dropped_near_dup = t.dropped_near_dup ∧ t'.kept = t.kept) ∧
      (_is_low_score t q = false → t.drop_near_dups = true → q.near_dup = true →
        res = none ∧ t'.dropped_near_dup = t.dropped_near_dup + 1 ∧
        t'.dropped_low_score = t.dropped_low_score ∧ t'.kept = t.kept) ∧
      (_is_low_score t q = false → (t.drop_near_dups && q.near_dup) = false →
        res = some (merge rec q) ∧ t'.kept = t.kept + 1 ∧
        t'.dropped_low_score = t.dropped_low_score ∧
        t'.dropped_near_dup = t.dropped_near_dup) := by
  refine ⟨(observe t q true).1,
    if (observe t q true).2 then some (merge rec q) else none, ?_, ?_, ?_, ?_, ?_⟩
  · unfold process_record
    rw [hs]
    dsimp only
    by_cases hob : (observe t q true).2 <;> simp [hob]
  · exact (observe_gate t q).1
  · intro hls
    have hg := (observe_gate t q).2.1 hls
    exact ⟨by simp [hg.1], hg.2.1, hg.2.2.1, hg.2.2.2⟩
  · intro hls hd hn
    have hg := (observe_gate t q).2.2.1 hls hd hn
    exact ⟨by simp [hg.1], hg.2.1, hg.2.2.1, hg.2.2.2⟩
  · intro hls hdn
    have hg := (observe_gate t q).2.2.2 hls hdn
    exact ⟨by simp [hg.1], hg.2.1, hg.2.2.1, hg.2.2.2⟩

/-- C3 witness: the gate theorem applied to a unit record whose scorer
returns a near-duplicate row, with a fresh default tracker. -/
theorem C3_witness :
    ∃ t' res,
      RepoQC.process_record
          (fun _ : Unit => Except.ok ({ near_dup := true } : QCResult))
          (fun r _ => r) (fun r => r) false true {} ()
        = Except.ok (t', res) ∧
      t'.scored = ({} : QCSummaryTracker).scored + 1 ∧
      (_is_low_score {} { near_dup := true } = true →
        res = none ∧
        t'.dropped_low_score = ({} : QCSummaryTracker).dropped_low_score + 1 ∧
        t'.dropped_near_dup = ({} : QCSummaryTracker).dropped_near_dup ∧
        t'.kept = ({} : QCSummaryTracker).kept) ∧
      (_is_low_score {} { near_dup := true } = false →
        ({} : QCSummaryTracker).drop_near_dups = true →
        ({ near_dup := true } : QCResult).near_dup = true →
        res = none ∧
        t'.dropped_near_dup = ({} : QCSummaryTracker).dropped_near_dup + 1 ∧
        t'.dropped_low_score = ({} : QCSummaryTracker).dropped_low_score ∧
        t'.kept = ({} : QCSummaryTracker).kept) ∧
      (_is_low_score {} { near_dup := true } = false →
        (({} : QCSummaryTracker).drop_near_dups
          && ({ near_dup := true } : QCResult).near_dup) = false →
        res = some () ∧ t'.kept = ({} : QCSummaryTracker).kept + 1 ∧
        t'.dropped_low_score = ({} : QCSummaryTracker).dropped_low_score ∧
        t'.dropped_near_dup = ({} : QCSummaryTracker).dropped_near_dup) :=
  C3_inline_gate (fun _ : Unit => Except.ok ({ near_dup := true } : QCResult))
    (fun r _ => r) (fun r => r) false {} () { near_dup := true } rfl

end Claims

namespace SievioAccel

/-- `_PRIME32 = 4294967311`, a prime above `2^32`. -/
def _PRIME32 : ℕ := 4294967311

/-- `_MINHASH_MAX_PERMS`. -/
def _MINHASH_MAX_PERMS : ℕ := 8192

/-- A coefficient cache is exactly a prefix of the deterministic stream
drawn from the fixed-seed PRNG (the stream itself is a parameter: the
Python seeds `random.Random(0x5EED5EED)` once at module load). -/
def CachePrefix (stream : ℕ → ℕ × ℕ) (cache : List (ℕ × ℕ)) : Prop :=
  cache = (List.range cache.length).map stream

/-- `_minhash_coeffs(n_perm)` with the module cache passed explicitly:
validates the bound, grows the cache monotonically by drawing missing
pairs from the stream, and returns the first `n_perm` cached pairs
(`n_perm < 0` cannot arise over `ℕ`). -/
def _minhash_coeffs (stream : ℕ → ℕ × ℕ) (cache : List (ℕ × ℕ))
    (n_perm : ℕ) : Except String (List (ℕ × ℕ) × List (ℕ × ℕ)) :=
  if _MINHASH_MAX_PERMS < n_perm then
    Except.error "n_perm must be <= 8192"
  else if n_perm = 0 then Except.ok (cache, [])
  else
    let cache2 :=
      if cache.length < n_perm then
        cache ++ (List.range (n_perm - cache.length)).map
          (fun i => stream (cache.length + i))
      else cache
    Except.ok (cache2, cache2.take n_perm)

/-- Modelled from the spec (the native extension is absent from `src/`):
the k-shingle sequence, restricted to the first `max_shingles + k - 1`
characters when the cap is set. -/
def shingles (k : ℕ) (text : List Char) (max_shingles : Option ℕ) :
    List (List Char) :=
  let t := match max_shingles with
    | some m => text.take (m + k - 1)
    | none => text
  (List.range (t.length + 1 - k)).map (fun i => (t.drop i).take k)

/-- Modelled from the spec: `sig[i] = min over shingles of
`(a_i * h0(s) + b_i) mod P`, and `0xFFFFFFFF` on an empty shingle set;
the stable 32-bit shingle hash `h0` is a parameter. -/
def minhashVal (h0 : List Char → ℕ) (shs : List (List Char))
    (ab : ℕ × ℕ) : ℕ :=
  match shs with
  | [] => 0xFFFFFFFF
  | s :: rest =>
      (rest.map (fun x => (ab.1 * h0 x + ab.2) % _PRIME32)).foldl min
        ((ab.1 * h0 s + ab.2) % _PRIME32)

/-- `minhash_signature_with_coeffs(text, k=, n_perm=, max_shingles=,
coeffs=)`. -/
def minhash_signature_with_coeffs (h0 : List Char → ℕ) (text : List Char)
    (k n_perm : ℕ) (max_shingles : Option ℕ) (coeffs : List (ℕ × ℕ)) :
    Except String (List ℕ) :=
  if coeffs.length ≠ n_perm then
    Except.error "coeffs length does not match n_perm"
  else Except.ok (coeffs.map (minhashVal h0 (shingles k text max_shingles)))

/-- `minhash_signature_for_text(text, k=, n_perm=, max_shingles=)` with
the module cache passed and returned explicitly. -/
def minhash_signature_for_text (stream : ℕ → ℕ × ℕ) (h0 : List Char → ℕ)
    (cache : List (ℕ × ℕ)) (text : List Char) (k n_perm : ℕ)
    (max_shingles : Option ℕ) :
    Except String (List (ℕ × ℕ) × List ℕ) :=
  match _minhash_coeffs stream cache n_perm with
  | Except.error e => Except.error e
  | Except.ok cc =>
      match minhash_signature_with_coeffs h0 text k n_perm max_shingles cc.2 with
      | Except.error e => Except.error e
      | Except.ok sig => Except.ok (cc.1, sig)

theorem coeffs_ok (stream : ℕ → ℕ × ℕ) (cache : List (ℕ × ℕ)) (n : ℕ)
    (hcp : CachePrefix stream cache) (hn : n ≤ _MINHASH_MAX_PERMS) :
    ∃ cache2, _minhash_coeffs stream cache n
        = Except.ok (cache2, (List.range n).map stream) ∧
      CachePrefix stream cache2 ∧ n ≤ cache2.length ∧
      (n ≤ cache.length → cache2 = cache) := by
  unfold _minhash_coeffs
  rw [if_neg (by omega)]
  by_cases hz : n = 0
  · subst hz
    rw [if_pos rfl]
    exact ⟨cache, rfl, hcp, by omega, fun _ => rfl⟩
  · rw [if_neg hz]
    dsimp only
    by_cases hlt : cache.length < n
    · rw [if_pos hlt]
      have hsplit := List.range_add cache.length (n - cache.length)
      rw [show cache.length + (n - cache.length) = n by omega] at hsplit
      have hext : cache ++ (List.range (n - cache.length)).map
          (fun i => stream (cache.length + i)) = (List.range n).map stream := by
        rw [hsplit, List.map_append, List.map_map, ← hcp]
        rfl
      refine ⟨(List.range n).map stream, ?_, ?_, by simp, fun hle => absurd hle (by omega)⟩
      · rw [hext, List.take_of_length_le (by simp)]
      · unfold CachePrefix
        simp
    · rw [if_neg hlt]
      have htake : cache.take n = (List.range n).map stream := by
        conv_lhs => rw [hcp]
        rw [← List.map_take, List.take_range,
          show n ⊓ cache.length = n from by omega]
      exact ⟨cache, by rw [htake], hcp, by omega, fun _ => rfl⟩

end SievioAccel

namespace Claims

open SievioAccel

/-- C8: starting from any cache that is a consistent prefix of the
fixed-seed coefficient stream, for `m ≤ n ≤ 8192` the MinHash signature
is deterministic (repeating the `n`-permutation call on the grown cache
returns the same signature and leaves the cache unchanged) and
prefix-extension invariant: the first `m` entries of the `n`-permutation
signature equal the `m`-permutation signature computed afterwards. -/
theorem C8_minhash_prefix (stream : ℕ → ℕ × ℕ) (h0 : List Char → ℕ)
    (cache : List (ℕ × ℕ)) (text : List Char) (k : ℕ)
    (max_shingles : Option ℕ) (m n : ℕ)
    (hcp : CachePrefix stream cache) (hmn : m ≤ n)
    (hn : n ≤ _MINHASH_MAX_PERMS) :
    ∃ cache2 sign sigm,
      minhash_signature_for_text stream h0 cache text k n max_shingles
        = Except.ok (cache2, sign) ∧
      minhash_signature_for_text stream h0 cache2 text k n max_shingles
        = Except.ok (cache2, sign) ∧
      minhash_signature_for_text stream h0 cache2 text k m max_shingles
        = Except.ok (cache2, sigm) ∧
      sign.take m = sigm ∧ sign.length = n ∧ sigm.length = m := by
  obtain ⟨c2, hc2, hcp2, hlen2, _⟩ := coeffs_ok stream cache n hcp hn
  obtain ⟨c3, hc3, _, _, hsame3⟩ := coeffs_ok stream c2 n hcp2 hn
  obtain ⟨c4, hc4, _, _, hsame4⟩ := coeffs_ok stream c2 m hcp2 (by omega)
  rw [hsame3 hlen2] at hc3
  rw [hsame4 (by omega)] at hc4
  refine ⟨c2,
    ((List.range n).map stream).map (minhashVal h0 (shingles k text max_shingles)),
    ((List.range m).map stream).map (minhashVal h0 (shingles k text max_shingles)),
    ?_, ?_, ?_, ?_, by simp, by simp⟩
  · unfold minhash_signature_for_text
    rw [hc2]
    dsimp only
    unfold minhash_signature_with_coeffs
    rw [if_neg (by simp)]
  · unfold minhash_signature_for_text
    rw [hc3]
    dsimp only
    unfold minhash_signature_with_coeffs
    rw [if_neg (by simp)]
  · unfold minhash_signature_for_text
    rw [hc4]
    dsimp only
    unfold minhash_signature_with_coeffs
    rw [if_neg (by simp)]
  · rw [← List.map_take, ← List.map_take, List.take_range,
      show m ⊓ n = m from by omega]

/-- C8 witness: the prefix theorem at a concrete stream, hash, and text
with `m = 1 ≤ n = 2`. -/
theorem C8_witness :
    ∃ cache2 sign sigm,
      minhash_signature_for_text (fun i => (i + 1, i)) (fun _ => 0)
          [] ['a', 'b'] 1 2 none = Except.ok (cache2, sign) ∧
      minhash_signature_for_text (fun i => (i + 1, i)) (fun _ => 0)
          cache2 ['a', 'b'] 1 2 none = Except.ok (cache2, sign) ∧
      minhash_signature_for_text (fun i => (i + 1, i)) (fun _ => 0)
          cache2 ['a', 'b'] 1 1 none = Except.ok (cache2, sigm) ∧
      sign.take 1 = sigm ∧ sign.length = 2 ∧ sigm.length = 1 :=
  C8_minhash_prefix (fun i => (i + 1, i)) (fun _ => 0) [] ['a', 'b'] 1
    none 1 2 rfl (by decide) (by decide)

end Claims

namespace RepoBuilder

/-- Modelled from the spec (the `config` module is absent from `src/`):
the slices of `RepocapsuleConfig` that carry runtime-only objects, over an
abstract runtime-object type `R`. -/
structure HttpConfig (R : Type) where
  client : Option R

/-- `cfg.sources`. -/
structure SourcesConfig (R : Type) where
  sources : List R

/-- `cfg.sinks`. -/
structure SinksConfig (R : Type) where
  sinks : List R

/-- `cfg.pipeline`. -/
structure PipelineConfig (R : Type) where
  bytes_handlers : List R
  file_extractor : Option R
  extractors : List R

/-- `cfg.qc`. -/
structure QCConfig (R : Type) where
  scorer : Option R

/-- The runtime-carrying part of `RepocapsuleConfig`. -/
structure RepocapsuleConfig (R : Type) where
  http : HttpConfig R
  sources : SourcesConfig R
  sinks : SinksConfig R
  pipeline : PipelineConfig R
  qc : QCConfig R

/-- `PipelinePlan(spec=..., runtime=...)`. -/
structure PipelinePlan (R P : Type) where
  spec : RepocapsuleConfig R
  runtime : P

/-- `_strip_runtime_from_spec(cfg)`: clear every runtime-only field. -/
def _strip_runtime_from_spec {R : Type} (cfg : RepocapsuleConfig R) :
    RepocapsuleConfig R :=
  { cfg with
    http := { cfg.http with client := none },
    sources := { cfg.sources with sources := [] },
    sinks := { cfg.sinks with sinks := [] },
    pipeline := { cfg.pipeline with
      bytes_handlers := [], file_extractor := none, extractors := [] },
    qc := { cfg.qc with scorer := none } }

/-- `build_pipeline_plan(config)` skeleton: the initial runtime-free
assertion, then the prepare/wire stages (which read registries and mutate
the config — their bodies live in modules absent from `src/`, so they are
function parameters returning the mutated config and the prepared pieces),
then runtime construction from the pre-strip config, and finally
`_strip_runtime_from_spec` on the very config object stored in the plan.
Each stage may raise, modelled as `Except`. -/
def build_pipeline_plan {R P : Type}
    (validate_free : RepocapsuleConfig R → Except String Unit)
    (prepare : RepocapsuleConfig R → Except String (RepocapsuleConfig R × P))
    (mk_runtime : RepocapsuleConfig R → P → Except String P)
    (cfg0 : RepocapsuleConfig R) : Except String (PipelinePlan R P) :=
  match validate_free cfg0 with
  | Except.error e => Except.error e
  | Except.ok _ =>
      match prepare cfg0 with
      | Except.error e => Except.error e
      | Except.ok cp =>
          match mk_runtime cp.1 cp.2 with
          | Except.error e => Except.error e
          | Except.ok runtime =>
              Except.ok ⟨_strip_runtime_from_spec cp.1, runtime⟩

end RepoBuilder

namespace Claims

open RepoBuilder

/-- C9: whenever `build_pipeline_plan` succeeds — whatever the
validation, prepare and runtime-construction stages did to the config —
the spec carried by the returned plan is runtime-object-free:
`http.client` and `pipeline.file_extractor` and `qc.scorer` are `None`,
and `sources.sources`, `sinks.sinks`, `pipeline.bytes_handlers` and
`pipeline.extractors` are empty. -/
theorem C9_plan_runtime_free {R P : Type}
    (validate_free : RepocapsuleConfig R → Except String Unit)
    (prepare : RepocapsuleConfig R → Except String (RepocapsuleConfig R × P))
    (mk_runtime : RepocapsuleConfig R → P → Except String P)
    (cfg0 : RepocapsuleConfig R) (plan : PipelinePlan R P)
    (h : build_pipeline_plan validate_free prepare mk_runtime cfg0
      = Except.ok plan) :
    plan.spec.http.client = none ∧
    plan.spec.sources.sources = [] ∧
    plan.spec.sinks.sinks = [] ∧
    plan.spec.pipeline.bytes_handlers = [] ∧
    plan.spec.pipeline.file_extractor = none ∧
    plan.spec.pipeline.extractors = [] ∧
    plan.spec.qc.scorer = none := by
  unfold build_pipeline_plan at h
  split at h
  · exact absurd h (by simp)
  · split at h
    · exact absurd h (by simp)
    · split at h
      · exact absurd h (by simp)
      · rw [Except.ok.injEq] at h
        subst h
        exact ⟨rfl, rfl, rfl, rfl, rfl, rfl, rfl⟩

/-- C9 witness: the theorem applied to trivial stages and a config whose
runtime fields are all populated. -/
theorem C9_witness :
    (⟨⟨⟨none⟩, ⟨[]⟩, ⟨[]⟩, ⟨[], none, []⟩, ⟨none⟩⟩, ()⟩ :
        PipelinePlan Unit Unit).spec.http.client = none ∧
    (⟨⟨⟨none⟩, ⟨[]⟩, ⟨[]⟩, ⟨[], none, []⟩, ⟨none⟩⟩, ()⟩ :
        PipelinePlan Unit Unit).spec.sources.sources = [] ∧
    (⟨⟨⟨none⟩, ⟨[]⟩, ⟨[]⟩, ⟨[], none, []⟩, ⟨none⟩⟩, ()⟩ :
        PipelinePlan Unit Unit).spec.sinks.sinks = [] ∧
    (⟨⟨⟨none⟩, ⟨[]⟩, ⟨[]⟩, ⟨[], none, []⟩, ⟨none⟩⟩, ()⟩ :
        PipelinePlan Unit Unit).spec.pipeline.bytes_handlers = [] ∧
    (⟨⟨⟨none⟩, ⟨[]⟩, ⟨[]⟩, ⟨[], none, []⟩, ⟨none⟩⟩, ()⟩ :
        PipelinePlan Unit Unit).spec.pipeline.file_extractor = none ∧
    (⟨⟨⟨none⟩, ⟨[]⟩, ⟨[]⟩, ⟨[], none, []⟩, ⟨none⟩⟩, ()⟩ :
        PipelinePlan Unit Unit).spec.pipeline.extractors = [] ∧
    (⟨⟨⟨none⟩, ⟨[]⟩, ⟨[]⟩, ⟨[], none, []⟩, ⟨none⟩⟩, ()⟩ :
        PipelinePlan Unit Unit).spec.qc.scorer = none :=
  C9_plan_runtime_free (fun _ => Except.ok ())
    (fun c => Except.ok (c, ())) (fun _ _ => Except.ok ())
    ⟨⟨some ()⟩, ⟨[()]⟩, ⟨[()]⟩, ⟨[()], some (), [()]⟩, ⟨some ()⟩⟩
    ⟨⟨⟨none⟩, ⟨[]⟩, ⟨[]⟩, ⟨[], none, []⟩, ⟨none⟩⟩, ()⟩ rfl

end Claims
